import Mathlib

/-!
Verification development for the Encore Loyalty AI feedback manager.

The embedding models:
* the data model of `shared/schema.ts` (fact groups, configurations,
  feedback responses);
* the placeholder substitution chain, length policy, sentiment and
  word-count analytics of the `/api/generate-response` route
  (`server/routes.ts`);
* the in-memory store (`MemStorage`) and the file-backed store
  (`FileStorage`) of `server/storage.ts`, with file contents modelled as
  explicit state.

JavaScript's `String.prototype.replace` with a global regex whose pattern
is a literal token is modelled by `jsReplaceGo`: it scans the subject left
to right, replaces each non-overlapping occurrence of the pattern, and
expands the `$$`, `$&`, dollar-backquote and dollar-quote sequences of the
replacement string exactly as the ECMAScript `GetSubstitution` algorithm
does (there are no capture groups, so `$1`-style references stay literal).
-/

/-- RestaurantFacts of `shared/schema.ts`. -/
structure RestaurantFacts where
  name : String
  address : String
  url : String
  type : String
  brandTone : String
  todoFacts : List String
deriving Repr, DecidableEq

/-- CustomerFacts of `shared/schema.ts`. -/
structure CustomerFacts where
  name : String
  gender : String
  history : String
  meal : String
  todoFacts : List String
deriving Repr, DecidableEq

/-- SystemFacts of `shared/schema.ts`. -/
structure SystemFacts where
  promptTemplate : String
  responseLength : String
  includeApology : Bool
  includeMarketing : Bool
  multipleResponses : Bool
deriving Repr, DecidableEq

/-- FactConfiguration of `shared/schema.ts`: an id plus the three fact groups. -/
structure FactConfiguration where
  id : Nat
  restaurantFacts : RestaurantFacts
  customerFacts : CustomerFacts
  systemFacts : SystemFacts
deriving Repr, DecidableEq

/-- InsertFactConfiguration: a configuration payload without an id. -/
structure InsertFactConfiguration where
  restaurantFacts : RestaurantFacts
  customerFacts : CustomerFacts
  systemFacts : SystemFacts
deriving Repr, DecidableEq

/-- Partial insert payload used by `updateFactConfiguration`: each fact group
is optional (`none` models an absent key of the JS partial object). -/
structure PartialInsertFactConfiguration where
  restaurantFacts : Option RestaurantFacts
  customerFacts : Option CustomerFacts
  systemFacts : Option SystemFacts
deriving Repr, DecidableEq

/-- FeedbackResponse of `shared/schema.ts`.  `configurationId` is an `Option`
because the runtime stores just spread the insert payload, in which the
field may be absent. -/
structure FeedbackResponse where
  id : Nat
  feedbackText : String
  aiResponse : String
  configurationId : Option Nat
deriving Repr, DecidableEq

/-- InsertFeedbackResponse: a response payload without an id. -/
structure InsertFeedbackResponse where
  feedbackText : String
  aiResponse : String
  configurationId : Option Nat
deriving Repr, DecidableEq

/-- Expansion of a JS replacement string at one match, following the
ECMAScript `GetSubstitution` algorithm for a pattern with no capture
groups: `$$` yields `$`, `$&` yields the matched text, dollar-backquote
yields the part of the subject before the match, dollar-quote yields the
part after the match, and every other character (including a `$` followed
by anything else) is copied literally. -/
def expandRep (matched before after : List Char) (rep : List Char) : List Char :=
  match rep with
  | [] => []
  | c :: rest =>
    if c = '$' then
      match rest with
      | [] => ['$']
      | d :: rest₂ =>
        if d = '$' then '$' :: expandRep matched before after rest₂
        else if d = '&' then matched ++ expandRep matched before after rest₂
        else if d = Char.ofNat 96 then before ++ expandRep matched before after rest₂
        else if d = Char.ofNat 39 then after ++ expandRep matched before after rest₂
        else '$' :: d :: expandRep matched before after rest₂
    else c :: expandRep matched before after rest

/-- Scanner of the JS global replace.  `pre` is the part of the original
subject already consumed, `s` the rest.  A positive `skip` means the
scanner is still inside the previously matched pattern occurrence, so it
consumes characters without emitting or matching (this makes the
recursion structural in `s`; matches are non-overlapping, exactly as in
JS where the regex `lastIndex` advances past each match). -/
def jsReplaceGo (pat rep : List Char) : Nat → List Char → List Char → List Char
  | _, _, [] => []
  | Nat.succ k, pre, c :: rest => jsReplaceGo pat rep k (pre ++ [c]) rest
  | 0, pre, c :: rest =>
    if !pat.isEmpty && pat.isPrefixOf (c :: rest) then
      expandRep pat pre (List.drop pat.length (c :: rest)) rep
        ++ jsReplaceGo pat rep (pat.length - 1) (pre ++ [c]) rest
    else
      c :: jsReplaceGo pat rep 0 (pre ++ [c]) rest

/-- Model of `s.replace(/pat/g, rep)` where `pat` is a literal token. -/
def jsReplace (s pat rep : String) : String :=
  ⟨jsReplaceGo pat.data rep.data 0 [] s.data⟩

/-- Number of positions of `l` at which `pat` occurs (all positions,
overlapping ones included). -/
def occurs (pat : List Char) : List Char → Nat
  | [] => 0
  | c :: rest => (if pat.isPrefixOf (c :: rest) then 1 else 0) + occurs pat rest

/-- The eleven recognized placeholder tokens, in the order the route handler
applies them. -/
def placeholderTokens : List String :=
  ["\x7bRestaurant Name\x7d", "\x7bAddress\x7d", "\x7bRestaurant Type\x7d",
   "\x7bBrand tone\x7d", "\x7bCustomer Name\x7d", "\x7bGender\x7d",
   "\x7bCustomer History\x7d", "\x7bMeal type\x7d",
   "\x7bCustomer Feedback Text\x7d", "\x7bRestaurant Todo List Facts\x7d",
   "\x7bCustomer Todo List Facts\x7d"]

/-- The (token, value) pairs of the substitution chain of
`/api/generate-response`, in source order.  List-valued facts are joined
with a comma and a space (`todoFacts.join(", ")`). -/
def placeholderPairs (config : FactConfiguration) (feedbackText : String) :
    List (String × String) :=
  [("\x7bRestaurant Name\x7d", config.restaurantFacts.name),
   ("\x7bAddress\x7d", config.restaurantFacts.address),
   ("\x7bRestaurant Type\x7d", config.restaurantFacts.type),
   ("\x7bBrand tone\x7d", config.restaurantFacts.brandTone),
   ("\x7bCustomer Name\x7d", config.customerFacts.name),
   ("\x7bGender\x7d", config.customerFacts.gender),
   ("\x7bCustomer History\x7d", config.customerFacts.history),
   ("\x7bMeal type\x7d", config.customerFacts.meal),
   ("\x7bCustomer Feedback Text\x7d", feedbackText),
   ("\x7bRestaurant Todo List Facts\x7d",
     String.intercalate ", " config.restaurantFacts.todoFacts),
   ("\x7bCustomer Todo List Facts\x7d",
     String.intercalate ", " config.customerFacts.todoFacts)]

/-- The placeholder substitution chain of the route handler: the eleven
`.replace` calls applied in sequence to the prompt template. -/
def renderPrompt (config : FactConfiguration) (feedbackText : String) : String :=
  (placeholderPairs config feedbackText).foldl
    (fun acc p => jsReplace acc p.1 p.2) config.systemFacts.promptTemplate

/-- A JavaScript value as far as the length-guidance lookup observes it:
an own data property of the object literal holds an instruction string; a
miss that hits `Object.prototype` on the prototype chain yields a function
or object, carried here together with the string that `${...}` turns it
into; a full miss is `undefined`. -/
inductive JsLookup where
  | str (s : String)
  | obj (stringified : String)
  | undefined
deriving Repr, DecidableEq

/-- The property names of `Object.prototype` (ECMAScript 20.2.3 plus the
Annex B legacy accessors), inherited by every plain object literal such as
`lengthGuidance`. -/
def objectProtoKeys : List String :=
  ["constructor", "hasOwnProperty", "isPrototypeOf", "propertyIsEnumerable",
   "toLocaleString", "toString", "valueOf", "__defineGetter__",
   "__defineSetter__", "__lookupGetter__", "__lookupSetter__", "__proto__"]

/-- What `${...}` turns the inherited `Object.prototype` member into: the
native-function source text, except `__proto__`, whose getter returns
`Object.prototype` itself, which stringifies as `[object Object]`. -/
def objectProtoString (key : String) : String :=
  if key = "constructor" then "function Object() \x7b [native code] \x7d"
  else if key = "__proto__" then "[object Object]"
  else "function " ++ key ++ "() \x7b [native code] \x7d"

/-- Model of the JS property read `lengthGuidance[key]`: the three own
keys of the object literal first, then the prototype chain up to
`Object.prototype`, then `undefined`. -/
def lengthGuidanceGet (key : String) : JsLookup :=
  if key = "short" then .str "Keep the response concise, around 2-3 sentences."
  else if key = "medium" then
    .str "Provide a moderate length response, around 3-4 paragraphs."
  else if key = "detailed" then
    .str "Provide a comprehensive response with detailed explanations."
  else if key ∈ objectProtoKeys then .obj (objectProtoString key)
  else .undefined

/-- JS truthiness of a looked-up value: the empty string, and `undefined`,
are falsy; functions and objects are truthy. -/
def jsTruthy : JsLookup → Bool
  | .str s => s != ""
  | .obj _ => true
  | .undefined => false

/-- The string `${...}` interpolation produces for a looked-up value. -/
def jsLookupToString : JsLookup → String
  | .str s => s
  | .obj o => o
  | .undefined => "undefined"

/-- Model of `${lengthGuidance[config.systemFacts.responseLength] ||
lengthGuidance.medium}`: the looked-up value when truthy, else the medium
instruction, stringified by the template literal. -/
def lengthGuidanceFor (responseLength : String) : String :=
  jsLookupToString
    (if jsTruthy (lengthGuidanceGet responseLength) then
      lengthGuidanceGet responseLength
    else .str "Provide a moderate length response, around 3-4 paragraphs.")

/-- Model of the `max_tokens` ternary chain of the route handler. -/
def maxTokensFor (responseLength : String) : Nat :=
  if responseLength = "detailed" then 1000
  else if responseLength = "short" then 200
  else 500

/-- The prompt actually sent to the collaborator: the rendered template plus
a blank line plus the length instruction (`prompt += "\n\n" + guidance`). -/
def buildPrompt (config : FactConfiguration) (feedbackText : String) : String :=
  renderPrompt config feedbackText ++ "\n\n"
    ++ lengthGuidanceFor config.systemFacts.responseLength

/-- Model of JS `String.prototype.toLowerCase` (ASCII-faithful). -/
def toLowerString (s : String) : String := s.map Char.toLower

/-- Containment of `sub` as a contiguous run of `l`, checked at every
position. -/
def listIncludes (sub : List Char) : List Char → Bool
  | [] => sub.isEmpty
  | c :: rest => sub.isPrefixOf (c :: rest) || listIncludes sub rest

/-- Model of JS `String.prototype.includes`. -/
def stringIncludes (s sub : String) : Bool := listIncludes sub.data s.data

/-- The positive keywords of the sentiment conditional, in source order. -/
def positiveKeywords : List String :=
  ["great", "excellent", "amazing", "wonderful", "outstanding"]

/-- The negative keywords of the sentiment conditional, in source order. -/
def negativeKeywords : List String :=
  ["bad", "terrible", "awful", "horrible"]

/-- The sentiment analytics of the route handler: the nested conditional on
`feedbackText.toLowerCase().includes(...)`. -/
def sentiment (feedbackText : String) : String :=
  if stringIncludes (toLowerString feedbackText) "great"
      || stringIncludes (toLowerString feedbackText) "excellent"
      || stringIncludes (toLowerString feedbackText) "amazing"
      || stringIncludes (toLowerString feedbackText) "wonderful"
      || stringIncludes (toLowerString feedbackText) "outstanding" then "Positive"
  else if stringIncludes (toLowerString feedbackText) "bad"
      || stringIncludes (toLowerString feedbackText) "terrible"
      || stringIncludes (toLowerString feedbackText) "awful"
      || stringIncludes (toLowerString feedbackText) "horrible" then "Negative"
  else "Neutral"

/-- Characters matched by the `\s` class of a JS regex: the WhiteSpace
production (TAB, VT, FF, SP, NBSP, ZWNBSP and the Zs space separators
U+1680, U+2000-U+200A, U+202F, U+205F, U+3000) plus the LineTerminator
production (LF, CR, LS U+2028, PS U+2029). -/
def jsIsSpace (c : Char) : Bool :=
  c = ' ' || c = '\t' || c = '\n' || c = '\r'
    || c = Char.ofNat 11 || c = Char.ofNat 12
    || c = Char.ofNat 0xA0 || c = Char.ofNat 0x1680
    || (0x2000 ≤ c.toNat && c.toNat ≤ 0x200A)
    || c = Char.ofNat 0x2028 || c = Char.ofNat 0x2029
    || c = Char.ofNat 0x202F || c = Char.ofNat 0x205F
    || c = Char.ofNat 0x3000 || c = Char.ofNat 0xFEFF

/-- Scanner of `s.split(/\s+/)`: `cur` is the reversed current field and
`sep` records whether the scanner is inside a whitespace run (the regex
matches maximal runs, so further whitespace extends the current separator
instead of opening a new one).  A whitespace character closes the current
field; the end of input closes the last field.  As in JS, a leading run
yields an empty first element and a trailing run an empty last element. -/
def splitWsGo (sep : Bool) (cur : List Char) : List Char → List (List Char)
  | [] => [cur.reverse]
  | c :: rest =>
    if jsIsSpace c then
      if sep then splitWsGo true [] rest
      else cur.reverse :: splitWsGo true [] rest
    else splitWsGo false (c :: cur) rest

/-- Model of `aiResponse.split(/\s+/)`. -/
def jsSplitWs (s : String) : List String := (splitWsGo false [] s.data).map String.mk

/-- The word-count analytics of the route handler:
`aiResponse.split(/\s+/).length`. -/
def wordCount (aiResponse : String) : Nat := (jsSplitWs aiResponse).length

/-- Modelled from the spec: scanner collecting the whitespace-delimited
tokens of a string — its maximal nonempty runs of non-whitespace
characters.  `cur` is the reversed token being read; empty fields are
never produced. -/
def wsTokensGo (cur : List Char) : List Char → List (List Char)
  | [] => if cur.isEmpty then [] else [cur.reverse]
  | c :: rest =>
    if jsIsSpace c then
      if cur.isEmpty then wsTokensGo [] rest else cur.reverse :: wsTokensGo [] rest
    else wsTokensGo (c :: cur) rest

/-- Modelled from the spec: the whitespace-delimited tokens of a string. -/
def wsTokensL (s : List Char) : List (List Char) := wsTokensGo [] s

/-- Modelled from the spec: the number of whitespace-delimited tokens. -/
def tokenCount (s : String) : Nat := (wsTokensL s.data).length

/-- Insertion-ordered map used to model the JS `Map` fields of `MemStorage`:
`set` replaces in place when the key exists and appends otherwise. -/
def mapSet (m : List (Nat × α)) (k : Nat) (v : α) : List (Nat × α) :=
  match m with
  | [] => [(k, v)]
  | (k', v') :: rest => if k' = k then (k, v) :: rest else (k', v') :: mapSet rest k v

/-- Lookup in the insertion-ordered map (`Map.get`). -/
def mapGet (m : List (Nat × α)) (k : Nat) : Option α :=
  match m with
  | [] => none
  | (k', v') :: rest => if k' = k then some v' else mapGet rest k

/-- State of `MemStorage`: the two maps and the two id counters. -/
structure MemStorage where
  factConfigs : List (Nat × FactConfiguration)
  feedbackResp : List (Nat × FeedbackResponse)
  currentConfigId : Nat
  currentResponseId : Nat
deriving Repr, DecidableEq

/-- MemStorage.getFactConfiguration. -/
def MemStorage.getFactConfiguration (s : MemStorage) (id : Nat) :
    Option FactConfiguration :=
  mapGet s.factConfigs id

/-- MemStorage.getLatestFactConfiguration: `undefined` on an empty map, else
the entry keyed by `Math.max(...keys)`. -/
def MemStorage.getLatestFactConfiguration (s : MemStorage) :
    Option FactConfiguration :=
  match s.factConfigs.map Prod.fst with
  | [] => none
  | k :: ks => mapGet s.factConfigs (ks.foldl max k)

/-- MemStorage.createFactConfiguration: `id = this.currentConfigId++`, then
`factConfigs.set(id, { ...config, id })`. -/
def MemStorage.createFactConfiguration (s : MemStorage)
    (config : InsertFactConfiguration) : FactConfiguration × MemStorage :=
  let id := s.currentConfigId
  let factConfig : FactConfiguration :=
    { id := id, restaurantFacts := config.restaurantFacts,
      customerFacts := config.customerFacts, systemFacts := config.systemFacts }
  (factConfig,
   { s with factConfigs := mapSet s.factConfigs id factConfig,
            currentConfigId := id + 1 })

/-- MemStorage.updateFactConfiguration: `undefined` when the id is missing,
else `{ ...existing, ...config, id }` written back under the same key
(a fact group absent from the partial payload keeps the existing value). -/
def MemStorage.updateFactConfiguration (s : MemStorage) (id : Nat)
    (config : PartialInsertFactConfiguration) :
    Option FactConfiguration × MemStorage :=
  match mapGet s.factConfigs id with
  | none => (none, s)
  | some existing =>
    let updated : FactConfiguration :=
      { id := id,
        restaurantFacts := config.restaurantFacts.getD existing.restaurantFacts,
        customerFacts := config.customerFacts.getD existing.customerFacts,
        systemFacts := config.systemFacts.getD existing.systemFacts }
    (some updated, { s with factConfigs := mapSet s.factConfigs id updated })

/-- MemStorage.getFeedbackResponse. -/
def MemStorage.getFeedbackResponse (s : MemStorage) (id : Nat) :
    Option FeedbackResponse :=
  mapGet s.feedbackResp id

/-- MemStorage.createFeedbackResponse: `id = this.currentResponseId++`, then
`feedbackResp.set(id, { ...response, id })`.  Note the spread copies
`configurationId` unchanged: there is no fallback here. -/
def MemStorage.createFeedbackResponse (s : MemStorage)
    (response : InsertFeedbackResponse) : FeedbackResponse × MemStorage :=
  let id := s.currentResponseId
  let feedbackResponse : FeedbackResponse :=
    { id := id, feedbackText := response.feedbackText,
      aiResponse := response.aiResponse,
      configurationId := response.configurationId }
  (feedbackResponse,
   { s with feedbackResp := mapSet s.feedbackResp id feedbackResponse,
            currentResponseId := id + 1 })

/-- MemStorage.getAllFeedbackResponses. -/
def MemStorage.getAllFeedbackResponses (s : MemStorage) : List FeedbackResponse :=
  s.feedbackResp.map Prod.snd

/-- Contents of `data/configurations.json` used by `FileStorage`. -/
structure ConfigFileData where
  configs : List FactConfiguration
  nextId : Nat
deriving Repr, DecidableEq

/-- Contents of `data/responses.json` used by `FileStorage`. -/
structure ResponsesFileData where
  responses : List FeedbackResponse
  nextId : Nat
deriving Repr, DecidableEq

/-- FileStorage.getFactConfiguration: `configs.find(c => c.id === id)`. -/
def FileStorage.getFactConfiguration (d : ConfigFileData) (id : Nat) :
    Option FactConfiguration :=
  d.configs.find? (fun c => c.id = id)

/-- FileStorage.getLatestFactConfiguration: `undefined` when the array is
empty, else `configs[configs.length - 1]`. -/
def FileStorage.getLatestFactConfiguration (d : ConfigFileData) :
    Option FactConfiguration :=
  if d.configs.isEmpty then none else d.configs.getLast?

/-- FileStorage.createFactConfiguration: takes `nextId`, pushes the new
configuration, increments `nextId`. -/
def FileStorage.createFactConfiguration (d : ConfigFileData)
    (config : InsertFactConfiguration) : FactConfiguration × ConfigFileData :=
  let id := d.nextId
  let factConfig : FactConfiguration :=
    { id := id, restaurantFacts := config.restaurantFacts,
      customerFacts := config.customerFacts, systemFacts := config.systemFacts }
  (factConfig, { configs := d.configs ++ [factConfig], nextId := d.nextId + 1 })

/-- FileStorage.updateFactConfiguration: `findIndex`, `undefined` when the id
is missing, else each fact group is `config.group || existing.group` and the
row is written back at the same index. -/
def FileStorage.updateFactConfiguration (d : ConfigFileData) (id : Nat)
    (config : PartialInsertFactConfiguration) :
    Option FactConfiguration × ConfigFileData :=
  match d.configs.findIdx? (fun c => c.id = id) with
  | none => (none, d)
  | some index =>
    match d.configs.get? index with
    | none => (none, d)
    | some existing =>
      let updated : FactConfiguration :=
        { id := id,
          restaurantFacts := config.restaurantFacts.getD existing.restaurantFacts,
          customerFacts := config.customerFacts.getD existing.customerFacts,
          systemFacts := config.systemFacts.getD existing.systemFacts }
      (some updated, { d with configs := d.configs.set index updated })

/-- FileStorage.getFeedbackResponse. -/
def FileStorage.getFeedbackResponse (d : ResponsesFileData) (id : Nat) :
    Option FeedbackResponse :=
  d.responses.find? (fun r => r.id = id)

/-- FileStorage.createFeedbackResponse: takes `nextId`, and persists
`configurationId: response.configurationId || 1` (so an absent value — and
a zero value, which is falsy — becomes 1). -/
def FileStorage.createFeedbackResponse (d : ResponsesFileData)
    (response : InsertFeedbackResponse) : FeedbackResponse × ResponsesFileData :=
  let id := d.nextId
  let feedbackResponse : FeedbackResponse :=
    { id := id, feedbackText := response.feedbackText,
      aiResponse := response.aiResponse,
      configurationId :=
        some (match response.configurationId with
              | none => 1
              | some n => if n = 0 then 1 else n) }
  (feedbackResponse,
   { responses := d.responses ++ [feedbackResponse], nextId := d.nextId + 1 })

/-- FileStorage.getAllFeedbackResponses. -/
def FileStorage.getAllFeedbackResponses (d : ResponsesFileData) :
    List FeedbackResponse :=
  d.responses

/-- The outcomes of the `/api/generate-response` handler that end the
request with an error status. -/
inductive GenError where
  | feedbackRequired
  | configurationNotFound
  | generationFailed
deriving Repr, DecidableEq

/-- Analytics block returned with a generated response. -/
structure ResponseAnalytics where
  wordCount : Nat
  sentiment : String
deriving Repr, DecidableEq

/-- Successful result of the handler: the saved record plus analytics. -/
structure GenSuccess where
  record : FeedbackResponse
  analytics : ResponseAnalytics
deriving Repr, DecidableEq

/-- Configuration resolution of the handler: `configurationId ?
storage.getFactConfiguration(configurationId) :
storage.getLatestFactConfiguration()` — a `configurationId` of 0 is falsy
in JS, so it also falls back to the latest. -/
def resolveConfig (s : MemStorage) (configurationId : Option Nat) :
    Option FactConfiguration :=
  match configurationId with
  | some cid =>
    if cid = 0 then s.getLatestFactConfiguration else s.getFactConfiguration cid
  | none => s.getLatestFactConfiguration

/-- The `/api/generate-response` handler over `MemStorage`.  The external
text-generation collaborator is the black box `gen`, taking the prompt and
the token budget and returning `completion.choices[0].message.content`
(`none` models a null content).  Mirrors the source order: empty feedback
check, configuration resolution (a `configurationId` of 0 is falsy in JS,
so it falls back to the latest), prompt build, collaborator call, empty
output check, persist, analytics. -/
def generateResponse (s : MemStorage) (feedbackText : String)
    (configurationId : Option Nat) (gen : String → Nat → Option String) :
    Except GenError GenSuccess × MemStorage :=
  if feedbackText = "" then (.error .feedbackRequired, s)
  else
    match resolveConfig s configurationId with
    | none => (.error .configurationNotFound, s)
    | some config =>
      let prompt := buildPrompt config feedbackText
      match gen prompt (maxTokensFor config.systemFacts.responseLength) with
      | none => (.error .generationFailed, s)
      | some aiResponse =>
        if aiResponse = "" then (.error .generationFailed, s)
        else
          let saved :=
            s.createFeedbackResponse
              { feedbackText := feedbackText, aiResponse := aiResponse,
                configurationId := some config.id }
          (.ok { record := saved.1,
                 analytics := { wordCount := wordCount aiResponse,
                                sentiment := sentiment feedbackText } },
           saved.2)


theorem expandRep_no_dollar (m bf af : List Char) {rep : List Char}
    (h : '$' ∉ rep) : expandRep m bf af rep = rep := by
  induction rep with
  | nil => rfl
  | cons c rest ih =>
    have hc : ¬c = '$' := fun hc => h (hc ▸ List.mem_cons_self c rest)
    have hrest : '$' ∉ rest := fun hm => h (List.mem_cons_of_mem c hm)
    rw [expandRep.eq_def]
    simp only [hc, if_false]
    exact congrArg (c :: ·) (ih hrest)

theorem prefixOf_append_self (p t : List Char) : p.isPrefixOf (p ++ t) = true := by
  induction p with
  | nil => simp
  | cons a as ih => simp [List.isPrefixOf_cons₂, ih]

theorem drop_length_append (p t : List Char) : List.drop p.length (p ++ t) = t := by
  induction p with
  | nil => simp
  | cons a as ih => simp [ih]

theorem take_length_append (p t : List Char) : List.take p.length (p ++ t) = p := by
  induction p with
  | nil => simp
  | cons a as ih => simp [ih]

theorem occurs_cons (pat : List Char) (c : Char) (rest : List Char) :
    occurs pat (c :: rest)
      = (if pat.isPrefixOf (c :: rest) then 1 else 0) + occurs pat rest := rfl

theorem occurs_le_append (pat a b : List Char) :
    occurs pat b ≤ occurs pat (a ++ b) := by
  induction a with
  | nil => simp
  | cons x a' ih =>
    rw [List.cons_append, occurs_cons]
    omega

theorem occurs_pos (pat a b : List Char) (hne : pat ≠ []) :
    1 ≤ occurs pat (a ++ pat ++ b) := by
  induction a with
  | nil =>
    cases pat with
    | nil => exact absurd rfl hne
    | cons p pat' =>
      rw [List.nil_append, List.cons_append, occurs_cons]
      have hpre : (p :: pat').isPrefixOf (p :: (pat' ++ b)) = true := by
        have h := prefixOf_append_self (p :: pat') b
        rw [List.cons_append] at h
        exact h
      rw [hpre]
      simp
  | cons x a' ih =>
    rw [List.cons_append, List.cons_append, occurs_cons]
    split <;> omega

theorem jsReplaceGo_skip (pat rep : List Char) (k : Nat) (pre l : List Char) :
    jsReplaceGo pat rep k pre l
      = jsReplaceGo pat rep 0 (pre ++ l.take k) (l.drop k) := by
  induction k generalizing pre l with
  | zero => simp
  | succ k ih =>
    cases l with
    | nil => simp [jsReplaceGo]
    | cons c rest =>
      rw [jsReplaceGo, ih]
      simp

theorem jsReplaceGo_of_occurs_zero (pat rep : List Char) (pre l : List Char)
    (h : occurs pat l = 0) : jsReplaceGo pat rep 0 pre l = l := by
  induction l generalizing pre with
  | nil => rfl
  | cons c rest ih =>
    rw [occurs_cons] at h
    have hp : pat.isPrefixOf (c :: rest) = false := by
      by_contra hb
      rw [Bool.not_eq_false] at hb
      rw [hb] at h
      simp at h
    rw [jsReplaceGo, hp]
    simp only [Bool.and_false, Bool.false_eq_true, if_false]
    exact congrArg (c :: ·) (ih (pre ++ [c]) (by omega))

theorem jsReplaceGo_single (pat rep : List Char) (hne : pat ≠ [])
    (a b : List Char) (hone : occurs pat (a ++ pat ++ b) = 1) :
    ∀ pre, jsReplaceGo pat rep 0 pre (a ++ pat ++ b)
      = a ++ expandRep pat (pre ++ a) b rep ++ b := by
  induction a with
  | nil =>
    intro pre
    cases pat with
    | nil => exact absurd rfl hne
    | cons p pat' =>
      have hpre : (p :: pat').isPrefixOf (p :: (pat' ++ b)) = true := by
        have h := prefixOf_append_self (p :: pat') b
        rw [List.cons_append] at h
        exact h
      rw [List.nil_append, List.cons_append, jsReplaceGo]
      simp only [List.isEmpty_cons, Bool.not_false, hpre, Bool.and_self, if_true]
      have hrest : occurs (p :: pat') (pat' ++ b) = 0 := by
        rw [List.nil_append, List.cons_append, occurs_cons, hpre] at hone
        simp at hone
        omega
      have hb : occurs (p :: pat') b = 0 :=
        Nat.le_zero.mp (hrest ▸ occurs_le_append (p :: pat') pat' b)
      have hdrop : List.drop (p :: pat').length (p :: (pat' ++ b)) = b := by
        have h := drop_length_append (p :: pat') b
        rw [List.cons_append] at h
        exact h
      rw [hdrop]
      have hskip : jsReplaceGo (p :: pat') rep ((p :: pat').length - 1) (pre ++ [p])
          (pat' ++ b) = b := by
        have hlen : (p :: pat').length - 1 = pat'.length := by simp
        rw [hlen, jsReplaceGo_skip, take_length_append, drop_length_append]
        exact jsReplaceGo_of_occurs_zero _ _ _ _ hb
      rw [hskip]
      simp
  | cons x a' ih =>
    intro pre
    have hge : 1 ≤ occurs pat (a' ++ pat ++ b) := occurs_pos pat a' b hne
    rw [List.cons_append, List.cons_append, occurs_cons] at hone
    have hnomatch : pat.isPrefixOf (x :: (a' ++ pat ++ b)) = false := by
      by_contra hb
      rw [Bool.not_eq_false] at hb
      rw [hb, if_pos rfl] at hone
      omega
    rw [hnomatch, if_neg Bool.false_ne_true, Nat.zero_add] at hone
    rw [List.cons_append, List.cons_append, jsReplaceGo, hnomatch]
    simp only [Bool.and_false, Bool.false_eq_true, if_false]
    rw [ih hone (pre ++ [x])]
    simp

theorem jsReplace_data (s pat rep : String) :
    (jsReplace s pat rep).data = jsReplaceGo pat.data rep.data 0 [] s.data := rfl

theorem jsReplace_id (s pat rep : String)
    (h : occurs pat.data s.data = 0) : jsReplace s pat rep = s := by
  apply String.ext
  rw [jsReplace_data]
  exact jsReplaceGo_of_occurs_zero _ _ _ _ h

theorem jsReplace_single (s pat rep : String) (a b : List Char)
    (hs : s.data = a ++ pat.data ++ b) (hne : pat.data ≠ [])
    (hone : occurs pat.data (a ++ pat.data ++ b) = 1)
    (hd : '$' ∉ rep.data) :
    (jsReplace s pat rep).data = a ++ rep.data ++ b := by
  rw [jsReplace_data, hs, jsReplaceGo_single pat.data rep.data hne a b hone []]
  rw [expandRep_no_dollar _ _ _ hd]

theorem foldl_replace_id (ps : List (String × String)) (s : String)
    (h : ∀ pr ∈ ps, occurs pr.1.data s.data = 0) :
    ps.foldl (fun acc p => jsReplace acc p.1 p.2) s = s := by
  induction ps with
  | nil => rfl
  | cons q qs ih =>
    rw [List.foldl_cons, jsReplace_id s q.1 q.2 (h q (List.mem_cons_self q qs))]
    exact ih fun pr hpr => h pr (List.mem_cons_of_mem q hpr)

theorem map_fst_placeholderPairs (config : FactConfiguration) (fb : String) :
    (placeholderPairs config fb).map Prod.fst = placeholderTokens := rfl

theorem placeholderTokens_nodup : placeholderTokens.Nodup := by decide

theorem placeholderTokens_ne_empty : ∀ T ∈ placeholderTokens, T.data ≠ [] := by decide

/-- C1 (amended): for a template of the form pre ++ P ++ post in which the
recognized placeholder P occurs exactly once and no other recognized token
occurs before or after substitution, and a fact value V free of dollar
signs, rendering yields exactly pre ++ V ++ post — containing V exactly
once and no literal P.  (The original universal claim over all V fails:
dollar sequences in V are expanded, see `cfgDollar_counterexample`.) -/
theorem renderPrompt_literal_substitution
    (config : FactConfiguration) (feedbackText : String)
    (P V : String) (pre post : List Char)
    (hmem : (P, V) ∈ placeholderPairs config feedbackText)
    (htmpl : config.systemFacts.promptTemplate.data = pre ++ P.data ++ post)
    (hone : occurs P.data (pre ++ P.data ++ post) = 1)
    (hdollar : '$' ∉ V.data)
    (hothers : ∀ Q W, (Q, W) ∈ placeholderPairs config feedbackText → Q ≠ P →
      occurs Q.data (pre ++ P.data ++ post) = 0 ∧
      occurs Q.data (pre ++ V.data ++ post) = 0)
    (hPres : occurs P.data (pre ++ V.data ++ post) = 0)
    (hVres : occurs V.data (pre ++ V.data ++ post) = 1) :
    (renderPrompt config feedbackText).data = pre ++ V.data ++ post ∧
      occurs V.data (renderPrompt config feedbackText).data = 1 ∧
      occurs P.data (renderPrompt config feedbackText).data = 0 := by
  obtain ⟨ps1, ps2, hsplit⟩ := List.append_of_mem hmem
  have hPne : P.data ≠ [] := by
    apply placeholderTokens_ne_empty
    rw [← map_fst_placeholderPairs config feedbackText]
    exact List.mem_map_of_mem Prod.fst hmem
  have hnodup : ((placeholderPairs config feedbackText).map Prod.fst).Nodup := by
    rw [map_fst_placeholderPairs]
    exact placeholderTokens_nodup
  rw [hsplit, List.map_append, List.map_cons] at hnodup
  have hnotmem : P ∉ ps1.map Prod.fst ++ ps2.map Prod.fst :=
    (List.nodup_cons.mp (List.nodup_middle.mp hnodup)).1
  have h1 : ps1.foldl (fun acc p => jsReplace acc p.1 p.2)
      config.systemFacts.promptTemplate = config.systemFacts.promptTemplate := by
    apply foldl_replace_id
    intro pr hpr
    have hmem' : pr ∈ placeholderPairs config feedbackText := by
      rw [hsplit]
      exact List.mem_append_of_mem_left _ hpr
    have hne : pr.1 ≠ P := by
      intro he
      exact hnotmem (List.mem_append_of_mem_left _
        (he ▸ List.mem_map_of_mem Prod.fst hpr))
    rw [htmpl]
    exact (hothers pr.1 pr.2 hmem' hne).1
  have h2 : (jsReplace config.systemFacts.promptTemplate P V).data
      = pre ++ V.data ++ post :=
    jsReplace_single _ P V pre post htmpl hPne hone hdollar
  have h4 : ps2.foldl (fun acc p => jsReplace acc p.1 p.2)
      (jsReplace config.systemFacts.promptTemplate P V)
      = jsReplace config.systemFacts.promptTemplate P V := by
    apply foldl_replace_id
    intro pr hpr
    have hmem' : pr ∈ placeholderPairs config feedbackText := by
      rw [hsplit]
      exact List.mem_append_of_mem_right _ (List.mem_cons_of_mem _ hpr)
    have hne : pr.1 ≠ P := by
      intro he
      exact hnotmem (List.mem_append_of_mem_right _
        (he ▸ List.mem_map_of_mem Prod.fst hpr))
    rw [h2]
    exact (hothers pr.1 pr.2 hmem' hne).2
  have hmain : (renderPrompt config feedbackText).data = pre ++ V.data ++ post := by
    rw [renderPrompt, hsplit, List.foldl_append]
    simp only [List.foldl_cons]
    rw [h1, h4, h2]
  exact ⟨hmain, by rw [hmain]; exact hVres, by rw [hmain]; exact hPres⟩

/-- Concrete configuration whose restaurant name is the JS replacement
pattern `$&`: the template is exactly the Restaurant Name placeholder. -/
def cfgDollar : FactConfiguration :=
  { id := 1,
    restaurantFacts :=
      { name := "$&", address := "", url := "", type := "", brandTone := "",
        todoFacts := [] },
    customerFacts :=
      { name := "", gender := "", history := "", meal := "", todoFacts := [] },
    systemFacts :=
      { promptTemplate := "\x7bRestaurant Name\x7d", responseLength := "medium",
        includeApology := true, includeMarketing := true,
        multipleResponses := false } }

theorem cfgDollar_counterexample :
    renderPrompt cfgDollar "hello" = "\x7bRestaurant Name\x7d"
      ∧ stringIncludes (renderPrompt cfgDollar "hello") "$&" = false
      ∧ occurs "\x7bRestaurant Name\x7d".data (renderPrompt cfgDollar "hello").data = 1 := by
  decide

/-- Concrete configuration for witnesses: customer name John, template with
the Customer Name placeholder exactly once. -/
def cfgHello : FactConfiguration :=
  { id := 1,
    restaurantFacts :=
      { name := "Sample Bistro", address := "", url := "", type := "",
        brandTone := "", todoFacts := [] },
    customerFacts :=
      { name := "John", gender := "", history := "", meal := "",
        todoFacts := [] },
    systemFacts :=
      { promptTemplate := "Hello \x7bCustomer Name\x7d!",
        responseLength := "medium", includeApology := true,
        includeMarketing := true, multipleResponses := false } }

theorem renderPrompt_literal_substitution_witness :
    (renderPrompt cfgHello "nice").data
        = "Hello ".data ++ "John".data ++ "!".data ∧
      occurs "John".data (renderPrompt cfgHello "nice").data = 1 ∧
      occurs "\x7bCustomer Name\x7d".data (renderPrompt cfgHello "nice").data = 0 :=
  renderPrompt_literal_substitution cfgHello "nice" "\x7bCustomer Name\x7d" "John"
    "Hello ".data "!".data (by decide) (by decide) (by decide) (by decide)
    (by
      intro Q W hQW hne
      simp only [placeholderPairs] at hQW
      fin_cases hQW <;> first
        | exact absurd rfl hne
        | exact ⟨by decide, by decide⟩)
    (by decide) (by decide)

theorem get?_split {α : Type} :
    ∀ (l : List α) (n : Nat) (x : α), l.get? n = some x →
      ∃ a b, l = a ++ x :: b ∧ a.length = n := by
  intro l
  induction l with
  | nil => intro n x h; simp at h
  | cons hd tl ih =>
    intro n x h
    cases n with
    | zero =>
      simp only [List.get?] at h
      injection h with h2
      subst h2
      exact ⟨[], tl, rfl, rfl⟩
    | succ n =>
      simp only [List.get?] at h
      obtain ⟨a, b, rfl, hlen⟩ := ih n x h
      exact ⟨hd :: a, b, rfl, by simp [hlen]⟩

theorem get?_split₂ {α : Type} :
    ∀ (l : List α) (i j : Nat) (x y : α), i < j →
      l.get? i = some x → l.get? j = some y →
      ∃ a b c, l = a ++ x :: b ++ y :: c := by
  intro l
  induction l with
  | nil => intro i j x y _ hi _; simp at hi
  | cons hd tl ih =>
    intro i j x y hij hi hj
    cases i with
    | zero =>
      simp only [List.get?] at hi
      injection hi with hi
      subst hi
      cases j with
      | zero => exact absurd hij (by omega)
      | succ j =>
        simp only [List.get?] at hj
        obtain ⟨b, c, rfl, _⟩ := get?_split tl j y hj
        exact ⟨[], b, c, rfl⟩
    | succ i =>
      cases j with
      | zero => exact absurd hij (by omega)
      | succ j =>
        simp only [List.get?] at hi hj
        obtain ⟨a, b, c, rfl⟩ := ih i j x y (by omega) hi hj
        exact ⟨hd :: a, b, c, rfl⟩

theorem nodup_two_split {α : Type} {A B C : List α} {P Q : α}
    (h : (A ++ P :: B ++ Q :: C).Nodup) :
    (∀ R ∈ A, R ≠ P ∧ R ≠ Q) ∧ (∀ R ∈ B, R ≠ P ∧ R ≠ Q)
      ∧ (∀ R ∈ C, R ≠ P ∧ R ≠ Q) ∧ P ≠ Q := by
  rw [List.nodup_append] at h
  obtain ⟨hAPB, hQC, hdisj⟩ := h
  rw [List.nodup_append] at hAPB
  obtain ⟨hA, hPB, hdisj1⟩ := hAPB
  rw [List.nodup_cons] at hPB
  obtain ⟨hPnotB, hB⟩ := hPB
  rw [List.nodup_cons] at hQC
  obtain ⟨hQnotC, hC⟩ := hQC
  refine ⟨?_, ?_, ?_, ?_⟩
  · intro R hR
    constructor
    · intro he
      exact hdisj1 hR (by rw [he]; exact List.mem_cons_self _ _)
    · intro he
      exact hdisj (List.mem_append_left _ hR)
        (by rw [he]; exact List.mem_cons_self _ _)
  · intro R hR
    constructor
    · intro he
      exact hPnotB (he ▸ hR)
    · intro he
      exact hdisj (List.mem_append_right _ (List.mem_cons_of_mem _ hR))
        (by rw [he]; exact List.mem_cons_self _ _)
  · intro R hR
    constructor
    · intro he
      exact hdisj (List.mem_append_right _ (List.mem_cons_self _ _))
        (he ▸ List.mem_cons_of_mem _ hR)
    · intro he
      exact hQnotC (he ▸ hR)
  · intro he
    exact hdisj (List.mem_append_right _ (List.mem_cons_self _ _))
      (by rw [he]; exact List.mem_cons_self _ _)

/-- C10: substitution is sequential in the fixed source order, not
simultaneous: for every configuration, feedback text and pair of chain
positions i < j, whenever the value substituted for the i-th placeholder
itself contains the token of the later j-th placeholder, the final
rendered prompt carries the j-th value inside the substituted text and no
longer contains the j-th token.  The hygiene hypotheses (single
occurrences, no interference from the other nine tokens, no dollar signs
in the two substituted values) keep the trace clean; template and values
are otherwise arbitrary. -/
theorem renderPrompt_sequential_substitution
    (config : FactConfiguration) (fb : String) (i j : Nat)
    (P V Q W : String) (pre post vpre vpost : List Char)
    (hij : i < j)
    (hi : (placeholderPairs config fb).get? i = some (P, V))
    (hj : (placeholderPairs config fb).get? j = some (Q, W))
    (htmpl : config.systemFacts.promptTemplate.data = pre ++ P.data ++ post)
    (hV : V.data = vpre ++ Q.data ++ vpost)
    (hdV : '$' ∉ V.data) (hdW : '$' ∉ W.data)
    (honeP : occurs P.data (pre ++ P.data ++ post) = 1)
    (honeQ : occurs Q.data (pre ++ V.data ++ post) = 1)
    (hQfin : occurs Q.data (pre ++ vpre ++ W.data ++ vpost ++ post) = 0)
    (hothers : ∀ R S, (R, S) ∈ placeholderPairs config fb → R ≠ P → R ≠ Q →
        occurs R.data (pre ++ P.data ++ post) = 0
        ∧ occurs R.data (pre ++ V.data ++ post) = 0
        ∧ occurs R.data (pre ++ vpre ++ W.data ++ vpost ++ post) = 0) :
    (renderPrompt config fb).data = pre ++ vpre ++ W.data ++ vpost ++ post
      ∧ occurs Q.data (renderPrompt config fb).data = 0 := by
  obtain ⟨A, B, C, hsplit⟩ :=
    get?_split₂ (placeholderPairs config fb) i j (P, V) (Q, W) hij hi hj
  have hPne : P.data ≠ [] := by
    apply placeholderTokens_ne_empty
    rw [← map_fst_placeholderPairs config fb]
    exact List.mem_map_of_mem Prod.fst (List.get?_mem hi)
  have hQne : Q.data ≠ [] := by
    apply placeholderTokens_ne_empty
    rw [← map_fst_placeholderPairs config fb]
    exact List.mem_map_of_mem Prod.fst (List.get?_mem hj)
  have hnodup : ((placeholderPairs config fb).map Prod.fst).Nodup := by
    rw [map_fst_placeholderPairs]
    exact placeholderTokens_nodup
  rw [hsplit, List.map_append, List.map_append, List.map_cons, List.map_cons]
    at hnodup
  obtain ⟨hAx, hBx, hCx, _⟩ := nodup_two_split hnodup
  have memA : ∀ pr ∈ A, pr ∈ placeholderPairs config fb := by
    intro pr hpr
    rw [hsplit]
    exact List.mem_append_left _ (List.mem_append_left _ hpr)
  have memB : ∀ pr ∈ B, pr ∈ placeholderPairs config fb := by
    intro pr hpr
    rw [hsplit]
    exact List.mem_append_left _
      (List.mem_append_right _ (List.mem_cons_of_mem _ hpr))
  have memC : ∀ pr ∈ C, pr ∈ placeholderPairs config fb := by
    intro pr hpr
    rw [hsplit]
    exact List.mem_append_right _ (List.mem_cons_of_mem _ hpr)
  have hA2 : ∀ pr ∈ A, pr.1 ≠ P ∧ pr.1 ≠ Q := fun pr hpr =>
    hAx pr.1 (List.mem_map_of_mem Prod.fst hpr)
  have hB2 : ∀ pr ∈ B, pr.1 ≠ P ∧ pr.1 ≠ Q := fun pr hpr =>
    hBx pr.1 (List.mem_map_of_mem Prod.fst hpr)
  have hC2 : ∀ pr ∈ C, pr.1 ≠ P ∧ pr.1 ≠ Q := fun pr hpr =>
    hCx pr.1 (List.mem_map_of_mem Prod.fst hpr)
  have h1 : A.foldl (fun acc p => jsReplace acc p.1 p.2)
      config.systemFacts.promptTemplate = config.systemFacts.promptTemplate := by
    apply foldl_replace_id
    intro pr hpr
    rw [htmpl]
    exact (hothers pr.1 pr.2 (memA pr hpr) (hA2 pr hpr).1 (hA2 pr hpr).2).1
  have h2 : (jsReplace config.systemFacts.promptTemplate P V).data
      = pre ++ V.data ++ post :=
    jsReplace_single _ P V pre post htmpl hPne honeP hdV
  have h3 : B.foldl (fun acc p => jsReplace acc p.1 p.2)
      (jsReplace config.systemFacts.promptTemplate P V)
      = jsReplace config.systemFacts.promptTemplate P V := by
    apply foldl_replace_id
    intro pr hpr
    rw [h2]
    exact (hothers pr.1 pr.2 (memB pr hpr) (hB2 pr hpr).1 (hB2 pr hpr).2).2.1
  have h4 : (jsReplace (jsReplace config.systemFacts.promptTemplate P V) Q W).data
      = pre ++ vpre ++ W.data ++ vpost ++ post := by
    have hs : (jsReplace config.systemFacts.promptTemplate P V).data
        = (pre ++ vpre) ++ Q.data ++ (vpost ++ post) := by
      rw [h2, hV]
      simp [List.append_assoc]
    have honeQ2 : occurs Q.data ((pre ++ vpre) ++ Q.data ++ (vpost ++ post)) = 1 := by
      rw [hV] at honeQ
      have heq : pre ++ (vpre ++ Q.data ++ vpost) ++ post
          = (pre ++ vpre) ++ Q.data ++ (vpost ++ post) := by
        simp [List.append_assoc]
      rw [heq] at honeQ
      exact honeQ
    have hres := jsReplace_single _ Q W (pre ++ vpre) (vpost ++ post) hs hQne
      honeQ2 hdW
    rw [hres]
    simp [List.append_assoc]
  have h5 : C.foldl (fun acc p => jsReplace acc p.1 p.2)
      (jsReplace (jsReplace config.systemFacts.promptTemplate P V) Q W)
      = jsReplace (jsReplace config.systemFacts.promptTemplate P V) Q W := by
    apply foldl_replace_id
    intro pr hpr
    rw [h4]
    exact (hothers pr.1 pr.2 (memC pr hpr) (hC2 pr hpr).1 (hC2 pr hpr).2).2.2
  have hmain : (renderPrompt config fb).data
      = pre ++ vpre ++ W.data ++ vpost ++ post := by
    rw [renderPrompt, hsplit, List.foldl_append, List.foldl_append, h1,
      List.foldl_cons, List.foldl_cons, h3, h5]
    exact h4
  exact ⟨hmain, by rw [hmain]; exact hQfin⟩

/-- Concrete configuration for the sequential-substitution witness: the
Customer Feedback Text placeholder sits inside surrounding template text,
and the feedback text carries the Restaurant Todo List Facts token inside
surrounding text of its own. -/
def cfgChain : FactConfiguration :=
  { id := 1,
    restaurantFacts :=
      { name := "Sample Bistro", address := "", url := "", type := "",
        brandTone := "", todoFacts := ["Summer Specials", "Seafood"] },
    customerFacts :=
      { name := "John", gender := "", history := "", meal := "",
        todoFacts := [] },
    systemFacts :=
      { promptTemplate := "T: \x7bCustomer Feedback Text\x7d!",
        responseLength := "medium", includeApology := true,
        includeMarketing := true, multipleResponses := false } }

theorem renderPrompt_sequential_substitution_witness :
    (renderPrompt cfgChain
        "see \x7bRestaurant Todo List Facts\x7d now").data
      = "T: ".data ++ "see ".data ++ "Summer Specials, Seafood".data
          ++ " now".data ++ "!".data
    ∧ occurs "\x7bRestaurant Todo List Facts\x7d".data
        (renderPrompt cfgChain
          "see \x7bRestaurant Todo List Facts\x7d now").data = 0 :=
  renderPrompt_sequential_substitution cfgChain
    "see \x7bRestaurant Todo List Facts\x7d now" 8 9
    "\x7bCustomer Feedback Text\x7d"
    "see \x7bRestaurant Todo List Facts\x7d now"
    "\x7bRestaurant Todo List Facts\x7d" "Summer Specials, Seafood"
    "T: ".data "!".data "see ".data " now".data
    (by decide) (by decide) (by decide) (by decide) (by decide) (by decide)
    (by decide) (by decide) (by decide) (by decide)
    (by
      intro R S hRS hne1 hne2
      simp only [placeholderPairs] at hRS
      fin_cases hRS <;> first
        | exact absurd rfl hne1
        | exact absurd rfl hne2
        | exact ⟨by decide, by decide, by decide⟩)


theorem eq_append_drop_of_prefixOf {p l : List Char} (h : p.isPrefixOf l = true) :
    l = p ++ l.drop p.length := by
  induction p generalizing l with
  | nil => simp
  | cons a as ih =>
    cases l with
    | nil => simp at h
    | cons b bs =>
      rw [List.isPrefixOf_cons₂, Bool.and_eq_true, beq_iff_eq] at h
      obtain ⟨rfl, h₂⟩ := h
      simpa using ih h₂

theorem listIncludes_iff (sub l : List Char) :
    listIncludes sub l = true ↔ ∃ a b, l = a ++ sub ++ b := by
  induction l with
  | nil =>
    simp only [listIncludes, List.isEmpty_iff]
    constructor
    · rintro rfl
      exact ⟨[], [], rfl⟩
    · rintro ⟨a, b, hab⟩
      have := congrArg List.length hab
      simp at this
      exact List.length_eq_zero.mp (by omega)
  | cons c rest ih =>
    simp only [listIncludes, Bool.or_eq_true]
    constructor
    · rintro (hp | hr)
      · exact ⟨[], (c :: rest).drop sub.length, by
          simpa using eq_append_drop_of_prefixOf hp⟩
      · obtain ⟨a, b, hab⟩ := ih.mp hr
        exact ⟨c :: a, b, by simp [hab]⟩
    · rintro ⟨a, b, hab⟩
      cases a with
      | nil =>
        left
        rw [List.nil_append] at hab
        rw [hab]
        exact prefixOf_append_self sub b
      | cons x a' =>
        right
        rw [List.cons_append, List.cons_append] at hab
        injection hab with hx hrest
        exact ih.mpr ⟨a', b, hrest⟩

/-- Modelled from the spec: case-insensitive substring containment, stated
as an explicit decomposition of the lowercased text. -/
def containsCaseInsensitive (s kw : String) : Prop :=
  ∃ a b, (toLowerString s).data = a ++ kw.data ++ b

theorem stringIncludes_iff (s sub : String) :
    stringIncludes s sub = true ↔ ∃ a b, s.data = a ++ sub.data ++ b := by
  rw [stringIncludes]
  exact listIncludes_iff sub.data s.data

theorem positive_cond_iff (fb : String) :
    (stringIncludes (toLowerString fb) "great"
      || stringIncludes (toLowerString fb) "excellent"
      || stringIncludes (toLowerString fb) "amazing"
      || stringIncludes (toLowerString fb) "wonderful"
      || stringIncludes (toLowerString fb) "outstanding") = true
      ↔ ∃ kw ∈ positiveKeywords, containsCaseInsensitive fb kw := by
  simp [Bool.or_eq_true, stringIncludes_iff, positiveKeywords,
    containsCaseInsensitive, or_assoc]

theorem negative_cond_iff (fb : String) :
    (stringIncludes (toLowerString fb) "bad"
      || stringIncludes (toLowerString fb) "terrible"
      || stringIncludes (toLowerString fb) "awful"
      || stringIncludes (toLowerString fb) "horrible") = true
      ↔ ∃ kw ∈ negativeKeywords, containsCaseInsensitive fb kw := by
  simp [Bool.or_eq_true, stringIncludes_iff, negativeKeywords,
    containsCaseInsensitive, or_assoc]

/-- C6: the computed sentiment is Positive exactly when the feedback text
case-insensitively contains a positive keyword; otherwise Negative exactly
when it contains a negative keyword; otherwise Neutral.  Positive keywords
are checked first, so a text containing both kinds resolves to Positive. -/
theorem sentiment_characterization (fb : String) :
    (sentiment fb = "Positive"
        ↔ ∃ kw ∈ positiveKeywords, containsCaseInsensitive fb kw)
      ∧ (sentiment fb = "Negative"
        ↔ (¬ (∃ kw ∈ positiveKeywords, containsCaseInsensitive fb kw))
            ∧ ∃ kw ∈ negativeKeywords, containsCaseInsensitive fb kw)
      ∧ (sentiment fb = "Neutral"
        ↔ (¬ (∃ kw ∈ positiveKeywords, containsCaseInsensitive fb kw))
            ∧ ¬ ∃ kw ∈ negativeKeywords, containsCaseInsensitive fb kw) := by
  have hpos := positive_cond_iff fb
  have hneg := negative_cond_iff fb
  rw [sentiment]
  split_ifs with h1 h2
  · refine ⟨⟨fun _ => hpos.mp h1, fun _ => rfl⟩, ?_, ?_⟩
    · constructor
      · intro habs
        exact absurd habs (by decide)
      · rintro ⟨hnp, _⟩
        exact absurd (hpos.mp h1) hnp
    · constructor
      · intro habs
        exact absurd habs (by decide)
      · rintro ⟨hnp, _⟩
        exact absurd (hpos.mp h1) hnp
  · have hnp : ¬ ∃ kw ∈ positiveKeywords, containsCaseInsensitive fb kw :=
      fun hc => h1 (hpos.mpr hc)
    refine ⟨?_, ?_, ?_⟩
    · constructor
      · intro habs
        exact absurd habs (by decide)
      · intro hc
        exact absurd hc hnp
    · exact ⟨fun _ => ⟨hnp, hneg.mp h2⟩, fun _ => rfl⟩
    · constructor
      · intro habs
        exact absurd habs (by decide)
      · rintro ⟨_, hnn⟩
        exact absurd (hneg.mp h2) hnn
  · have hnp : ¬ ∃ kw ∈ positiveKeywords, containsCaseInsensitive fb kw :=
      fun hc => h1 (hpos.mpr hc)
    have hnn : ¬ ∃ kw ∈ negativeKeywords, containsCaseInsensitive fb kw :=
      fun hc => h2 (hneg.mpr hc)
    refine ⟨?_, ?_, ?_⟩
    · constructor
      · intro habs
        exact absurd habs (by decide)
      · intro hc
        exact absurd hc hnp
    · constructor
      · intro habs
        exact absurd habs (by decide)
      · rintro ⟨_, hc⟩
        exact absurd hc hnn
    · exact ⟨fun _ => ⟨hnp, hnn⟩, fun _ => rfl⟩

theorem lengthGuidance_prototype_counterexample :
    lengthGuidanceFor "constructor" = "function Object() \x7b [native code] \x7d"
      ∧ lengthGuidanceFor "constructor" ≠ lengthGuidanceFor "medium"
      ∧ ("constructor" : String) ∉ (["short", "medium", "detailed"] : List String) := by
  decide

/-- C5 (amended): the length policy maps short/medium/detailed to their
exact instructions and budgets, and every other string behaves identically
to medium — except the property names of `Object.prototype`: for those the
lookup `lengthGuidance[key]` hits a truthy inherited function (or, for
`__proto__`, `Object.prototype` itself), the `|| medium` fallback never
fires, and the appended instruction is the stringified inherited value,
while the token budget is still 500.  The instruction is appended to the
rendered prompt after a blank line. -/
theorem lengthPolicy_characterization :
    (lengthGuidanceFor "short" = "Keep the response concise, around 2-3 sentences."
        ∧ maxTokensFor "short" = 200)
      ∧ (lengthGuidanceFor "medium"
            = "Provide a moderate length response, around 3-4 paragraphs."
        ∧ maxTokensFor "medium" = 500)
      ∧ (lengthGuidanceFor "detailed"
            = "Provide a comprehensive response with detailed explanations."
        ∧ maxTokensFor "detailed" = 1000)
      ∧ (∀ len : String, len ∉ (["short", "medium", "detailed"] : List String) →
          len ∉ objectProtoKeys →
          lengthGuidanceFor len = lengthGuidanceFor "medium"
            ∧ maxTokensFor len = maxTokensFor "medium")
      ∧ (∀ len ∈ objectProtoKeys,
          lengthGuidanceFor len = objectProtoString len
            ∧ lengthGuidanceFor len ≠ lengthGuidanceFor "medium"
            ∧ maxTokensFor len = 500)
      ∧ (∀ (config : FactConfiguration) (fb : String),
          buildPrompt config fb = renderPrompt config fb ++ "\n\n"
            ++ lengthGuidanceFor config.systemFacts.responseLength) := by
  refine ⟨by decide, by decide, by decide, ?_, ?_, fun config fb => rfl⟩
  · intro len hlen hproto
    simp only [List.mem_cons, List.not_mem_nil, or_false, not_or] at hlen
    obtain ⟨h1, h2, h3⟩ := hlen
    constructor
    · simp [lengthGuidanceFor, lengthGuidanceGet, jsTruthy, jsLookupToString,
        h1, h2, h3, hproto]
    · simp [maxTokensFor, h1, h3]
  · intro len hlen
    fin_cases hlen <;> exact ⟨by decide, by decide, by decide⟩

theorem lengthPolicy_characterization_witness :
    ("commprehensive" : String) ∉ (["short", "medium", "detailed"] : List String)
      ∧ ("commprehensive" : String) ∉ objectProtoKeys
      ∧ (lengthGuidanceFor "commprehensive" = lengthGuidanceFor "medium"
        ∧ maxTokensFor "commprehensive" = maxTokensFor "medium")
      ∧ ("toString" : String) ∈ objectProtoKeys
      ∧ (lengthGuidanceFor "toString" = objectProtoString "toString"
        ∧ lengthGuidanceFor "toString" ≠ lengthGuidanceFor "medium"
        ∧ maxTokensFor "toString" = 500) :=
  ⟨by decide, by decide,
   lengthPolicy_characterization.2.2.2.1 "commprehensive" (by decide) (by decide),
   by decide,
   lengthPolicy_characterization.2.2.2.2.1 "toString" (by decide)⟩


/-- There is no trailing whitespace: every character the `getLast?` of the
list reports is a non-space. -/
def lastOk (l : List Char) : Prop :=
  ∀ c, l.getLast? = some c → jsIsSpace c = false

theorem lastOk_tail {c : Char} {rest : List Char} (h : lastOk (c :: rest)) :
    lastOk rest := by
  intro x hx
  cases rest with
  | nil => simp at hx
  | cons d r => exact h x (by rw [List.getLast?_cons_cons]; exact hx)

theorem splitTokens_agree (l : List Char) (hlast : lastOk l) :
    (∀ cur₁ cur₂ : List Char, cur₂ ≠ [] →
      (splitWsGo false cur₁ l).length = (wsTokensGo cur₂ l).length)
    ∧ (l ≠ [] → (splitWsGo true [] l).length = (wsTokensGo [] l).length) := by
  match l with
  | [] =>
    refine ⟨fun cur₁ cur₂ h2 => ?_, fun h => absurd rfl h⟩
    rw [splitWsGo, wsTokensGo, if_neg (by simpa using h2)]
    rfl
  | c :: rest =>
    have ih := splitTokens_agree rest (lastOk_tail hlast)
    by_cases hc : jsIsSpace c
    · have hrest : rest ≠ [] := by
        intro hr
        subst hr
        have h := hlast c (by simp)
        rw [h] at hc
        exact Bool.noConfusion hc
      constructor
      · intro cur₁ cur₂ h2
        rw [splitWsGo, wsTokensGo, if_pos hc, if_pos hc, if_neg (by simp),
          if_neg (by simpa using h2)]
        simp only [List.length_cons]
        rw [ih.2 hrest]
      · intro _
        rw [splitWsGo, wsTokensGo, if_pos hc, if_pos hc, if_pos (by simp),
          if_pos (by simp)]
        exact ih.2 hrest
    · constructor
      · intro cur₁ cur₂ h2
        rw [splitWsGo, wsTokensGo, if_neg hc, if_neg hc]
        exact ih.1 (c :: cur₁) (c :: cur₂) (by simp)
      · intro _
        rw [splitWsGo, wsTokensGo, if_neg hc, if_neg hc]
        exact ih.1 [c] [c] (by simp)

theorem wordCount_split_counterexample :
    wordCount " hi" = 2 ∧ tokenCount " hi" = 1 := by decide

/-- C7 (amended): for a generated text that is nonempty and neither starts
nor ends with whitespace, `aiResponse.split(/\s+/).length` equals the
number of whitespace-delimited tokens.  With leading or trailing
whitespace the split produces an empty first or last element and the
count is larger. -/
theorem wordCount_eq_tokenCount (s : String) (h0 : s.data ≠ [])
    (hhead : ∀ c, s.data.head? = some c → jsIsSpace c = false)
    (hlast : ∀ c, s.data.getLast? = some c → jsIsSpace c = false) :
    wordCount s = tokenCount s := by
  rw [wordCount, jsSplitWs, List.length_map, tokenCount, wsTokensL]
  cases hd : s.data with
  | nil => exact absurd hd h0
  | cons c rest =>
    have hc : jsIsSpace c = false := hhead c (by rw [hd]; rfl)
    have hlast' : lastOk (c :: rest) := by
      intro x hx
      exact hlast x (by rw [hd]; exact hx)
    rw [splitWsGo, wsTokensGo, if_neg (by rw [hc]; simp),
      if_neg (by rw [hc]; simp)]
    exact ((splitTokens_agree rest (lastOk_tail hlast')).1) [c] [c] (by simp)

theorem wordCount_eq_tokenCount_witness :
    ("a b" : String).data ≠ [] ∧ wordCount "a b" = tokenCount "a b" :=
  ⟨by decide, wordCount_eq_tokenCount "a b" (by decide)
    (by
      intro c h
      have hh : ("a b" : String).data.head? = some 'a' := by decide
      rw [hh] at h
      injection h with h2
      rw [← h2]
      decide)
    (by
      intro c h
      have hh : ("a b" : String).data.getLast? = some 'b' := by decide
      rw [hh] at h
      injection h with h2
      rw [← h2]
      decide)⟩

/-- Sequence of `createFactConfiguration` calls on `MemStorage`, returning
the assigned identifiers in order. -/
def MemStorage.createManyCfg (s : MemStorage) :
    List InsertFactConfiguration → List Nat × MemStorage
  | [] => ([], s)
  | c :: rest =>
    let r := s.createFactConfiguration c
    let r2 := r.2.createManyCfg rest
    (r.1.id :: r2.1, r2.2)

/-- Sequence of `createFeedbackResponse` calls on `MemStorage`. -/
def MemStorage.createManyResp (s : MemStorage) :
    List InsertFeedbackResponse → List Nat × MemStorage
  | [] => ([], s)
  | r :: rest =>
    let x := s.createFeedbackResponse r
    let x2 := x.2.createManyResp rest
    (x.1.id :: x2.1, x2.2)

/-- Sequence of `createFactConfiguration` calls on the configurations file. -/
def FileStorage.createManyCfg (d : ConfigFileData) :
    List InsertFactConfiguration → List Nat × ConfigFileData
  | [] => ([], d)
  | c :: rest =>
    let r := FileStorage.createFactConfiguration d c
    let r2 := FileStorage.createManyCfg r.2 rest
    (r.1.id :: r2.1, r2.2)

/-- Sequence of `createFeedbackResponse` calls on the responses file. -/
def FileStorage.createManyResp (d : ResponsesFileData) :
    List InsertFeedbackResponse → List Nat × ResponsesFileData
  | [] => ([], d)
  | r :: rest =>
    let x := FileStorage.createFeedbackResponse d r
    let x2 := FileStorage.createManyResp x.2 rest
    (x.1.id :: x2.1, x2.2)

/-- Every configuration key of the in-memory store is below the counter. -/
def MemStorage.CfgKeysBelow (s : MemStorage) : Prop :=
  ∀ kv ∈ s.factConfigs, kv.1 < s.currentConfigId

/-- Every response key of the in-memory store is below the counter. -/
def MemStorage.RespKeysBelow (s : MemStorage) : Prop :=
  ∀ kv ∈ s.feedbackResp, kv.1 < s.currentResponseId

/-- Every configuration id of the file store is below `nextId`. -/
def ConfigFileData.IdsBelow (d : ConfigFileData) : Prop :=
  ∀ c ∈ d.configs, c.id < d.nextId

/-- Every response id of the file store is below `nextId`. -/
def ResponsesFileData.IdsBelow (d : ResponsesFileData) : Prop :=
  ∀ r ∈ d.responses, r.id < d.nextId

theorem memCreateManyCfg_ids (cs : List InsertFactConfiguration) :
    ∀ s : MemStorage, (s.createManyCfg cs).1
      = List.range' s.currentConfigId cs.length := by
  induction cs with
  | nil => intro s; rfl
  | cons c rest ih =>
    intro s
    rw [MemStorage.createManyCfg]
    simp only [List.length_cons, List.range'_succ]
    exact congrArg (s.currentConfigId :: ·) (ih _)

theorem memCreateManyResp_ids (rs : List InsertFeedbackResponse) :
    ∀ s : MemStorage, (s.createManyResp rs).1
      = List.range' s.currentResponseId rs.length := by
  induction rs with
  | nil => intro s; rfl
  | cons r rest ih =>
    intro s
    rw [MemStorage.createManyResp]
    simp only [List.length_cons, List.range'_succ]
    exact congrArg (s.currentResponseId :: ·) (ih _)

theorem fileCreateManyCfg_ids (cs : List InsertFactConfiguration) :
    ∀ d : ConfigFileData, (FileStorage.createManyCfg d cs).1
      = List.range' d.nextId cs.length := by
  induction cs with
  | nil => intro d; rfl
  | cons c rest ih =>
    intro d
    rw [FileStorage.createManyCfg]
    simp only [List.length_cons, List.range'_succ]
    exact congrArg (d.nextId :: ·) (ih _)

theorem fileCreateManyResp_ids (rs : List InsertFeedbackResponse) :
    ∀ d : ResponsesFileData, (FileStorage.createManyResp d rs).1
      = List.range' d.nextId rs.length := by
  induction rs with
  | nil => intro d; rfl
  | cons r rest ih =>
    intro d
    rw [FileStorage.createManyResp]
    simp only [List.length_cons, List.range'_succ]
    exact congrArg (d.nextId :: ·) (ih _)

theorem mem_mapSet {m : List (Nat × α)} {k : Nat} {v : α} :
    ∀ kv ∈ mapSet m k v, kv = (k, v) ∨ kv ∈ m := by
  induction m with
  | nil =>
    intro kv hkv
    rw [mapSet] at hkv
    simp at hkv
    exact Or.inl hkv
  | cons hd tl ih =>
    intro kv hkv
    rw [mapSet] at hkv
    by_cases he : hd.1 = k
    · rw [if_pos he] at hkv
      rcases List.mem_cons.mp hkv with rfl | h
      · exact Or.inl rfl
      · exact Or.inr (List.mem_cons_of_mem _ h)
    · rw [if_neg he] at hkv
      rcases List.mem_cons.mp hkv with rfl | h
      · exact Or.inr (List.mem_cons_self _ _)
      · rcases ih kv h with h1 | h1
        · exact Or.inl h1
        · exact Or.inr (List.mem_cons_of_mem _ h1)

theorem mapGet_mem {m : List (Nat × α)} {k : Nat} {v : α}
    (h : mapGet m k = some v) : (k, v) ∈ m := by
  induction m with
  | nil => simp [mapGet] at h
  | cons hd tl ih =>
    rw [mapGet] at h
    by_cases he : hd.1 = k
    · rw [if_pos he] at h
      injection h with h2
      have he2 : (k, v) = hd := by rw [← he, ← h2]
      rw [he2]
      exact List.mem_cons_self _ _
    · rw [if_neg he] at h
      exact List.mem_cons_of_mem _ (ih h)

theorem findIdx?_sat {α : Type} (p : α → Bool) (l : List α) :
    ∀ ix x, l.findIdx? p = some ix → l.get? ix = some x → p x = true := by
  induction l with
  | nil => intro ix x h; simp at h
  | cons hd tl ih =>
    intro ix x h hg
    rw [List.findIdx?_cons] at h
    by_cases hp : p hd
    · rw [if_pos hp] at h
      injection h with h2
      subst h2
      simp only [List.get?] at hg
      injection hg with h3
      rw [← h3]
      exact hp
    · rw [if_neg hp, List.findIdx?_succ] at h
      match hix : tl.findIdx? p with
      | none => rw [hix] at h; simp at h
      | some j =>
        rw [hix] at h
        simp at h
        subst h
        simp only [List.get?] at hg
        exact ih j x hix hg

/-- C3: in each store (configurations and responses, in-memory and
file-backed), the identifiers assigned by any sequence of create calls are
strictly increasing, never collide with an identifier already present
(given the counter invariant), the invariants are preserved by create and
update, and two consecutive creates yield distinct increasing ids. -/
theorem create_ids_strictly_increasing :
    (∀ (s : MemStorage) (cs : List InsertFactConfiguration),
        List.Pairwise (· < ·) (s.createManyCfg cs).1
      ∧ (s.CfgKeysBelow →
          ∀ i ∈ (s.createManyCfg cs).1, ∀ kv ∈ s.factConfigs, kv.1 ≠ i))
    ∧ (∀ (s : MemStorage) (rs : List InsertFeedbackResponse),
        List.Pairwise (· < ·) (s.createManyResp rs).1
      ∧ (s.RespKeysBelow →
          ∀ i ∈ (s.createManyResp rs).1, ∀ kv ∈ s.feedbackResp, kv.1 ≠ i))
    ∧ (∀ (d : ConfigFileData) (cs : List InsertFactConfiguration),
        List.Pairwise (· < ·) (FileStorage.createManyCfg d cs).1
      ∧ (d.IdsBelow →
          ∀ i ∈ (FileStorage.createManyCfg d cs).1, ∀ c ∈ d.configs, c.id ≠ i))
    ∧ (∀ (d : ResponsesFileData) (rs : List InsertFeedbackResponse),
        List.Pairwise (· < ·) (FileStorage.createManyResp d rs).1
      ∧ (d.IdsBelow →
          ∀ i ∈ (FileStorage.createManyResp d rs).1, ∀ r ∈ d.responses, r.id ≠ i))
    ∧ (∀ (s : MemStorage) (c : InsertFactConfiguration),
        (s.CfgKeysBelow → (s.createFactConfiguration c).2.CfgKeysBelow)
      ∧ (s.RespKeysBelow → (s.createFactConfiguration c).2.RespKeysBelow))
    ∧ (∀ (s : MemStorage) (id : Nat) (p : PartialInsertFactConfiguration),
        s.CfgKeysBelow → (s.updateFactConfiguration id p).2.CfgKeysBelow)
    ∧ (∀ (s : MemStorage) (r : InsertFeedbackResponse),
        (s.RespKeysBelow → (s.createFeedbackResponse r).2.RespKeysBelow)
      ∧ (s.CfgKeysBelow → (s.createFeedbackResponse r).2.CfgKeysBelow))
    ∧ (∀ (d : ConfigFileData) (c : InsertFactConfiguration),
        d.IdsBelow → (FileStorage.createFactConfiguration d c).2.IdsBelow)
    ∧ (∀ (d : ConfigFileData) (id : Nat) (p : PartialInsertFactConfiguration),
        d.IdsBelow → (FileStorage.updateFactConfiguration d id p).2.IdsBelow)
    ∧ (∀ (d : ResponsesFileData) (r : InsertFeedbackResponse),
        d.IdsBelow → (FileStorage.createFeedbackResponse d r).2.IdsBelow)
    ∧ (∀ (s : MemStorage) (c₁ c₂ : InsertFactConfiguration),
        (s.createFactConfiguration c₁).1.id
          < ((s.createFactConfiguration c₁).2.createFactConfiguration c₂).1.id)
    ∧ (∀ (d : ConfigFileData) (c₁ c₂ : InsertFactConfiguration),
        (FileStorage.createFactConfiguration d c₁).1.id
          < (FileStorage.createFactConfiguration
              (FileStorage.createFactConfiguration d c₁).2 c₂).1.id) := by
  refine ⟨?_, ?_, ?_, ?_, ?_, ?_, ?_, ?_, ?_, ?_, ?_, ?_⟩
  · intro s cs
    rw [memCreateManyCfg_ids]
    refine ⟨List.pairwise_lt_range' _ _, fun hinv i hi kv hkv => ?_⟩
    have h1 := (List.mem_range'_1.mp hi).1
    have h2 := hinv kv hkv
    omega
  · intro s rs
    rw [memCreateManyResp_ids]
    refine ⟨List.pairwise_lt_range' _ _, fun hinv i hi kv hkv => ?_⟩
    have h1 := (List.mem_range'_1.mp hi).1
    have h2 := hinv kv hkv
    omega
  · intro d cs
    rw [fileCreateManyCfg_ids]
    refine ⟨List.pairwise_lt_range' _ _, fun hinv i hi c hc => ?_⟩
    have h1 := (List.mem_range'_1.mp hi).1
    have h2 := hinv c hc
    omega
  · intro d rs
    rw [fileCreateManyResp_ids]
    refine ⟨List.pairwise_lt_range' _ _, fun hinv i hi r hr => ?_⟩
    have h1 := (List.mem_range'_1.mp hi).1
    have h2 := hinv r hr
    omega
  · intro s c
    constructor
    · intro hinv kv hkv
      rcases mem_mapSet kv hkv with rfl | h
      · simp [MemStorage.createFactConfiguration]
      · have := hinv kv h
        simp only [MemStorage.createFactConfiguration]
        omega
    · intro hinv kv hkv
      exact hinv kv hkv
  · intro s id p hinv
    rw [MemStorage.updateFactConfiguration]
    match hg : mapGet s.factConfigs id with
    | none => exact hinv
    | some existing =>
      intro kv hkv
      simp only at hkv
      rcases mem_mapSet kv hkv with rfl | h
      · exact hinv (id, existing) (mapGet_mem hg)
      · exact hinv kv h
  · intro s r
    constructor
    · intro hinv kv hkv
      rcases mem_mapSet kv hkv with rfl | h
      · simp [MemStorage.createFeedbackResponse]
      · have := hinv kv h
        simp only [MemStorage.createFeedbackResponse]
        omega
    · intro hinv kv hkv
      exact hinv kv hkv
  · intro d c hinv x hx
    simp only [FileStorage.createFactConfiguration] at hx
    rcases List.mem_append.mp hx with h | h
    · have := hinv x h
      simp only [FileStorage.createFactConfiguration]
      omega
    · simp at h
      subst h
      simp [FileStorage.createFactConfiguration]
  · intro d id p hinv
    rw [FileStorage.updateFactConfiguration]
    split
    · exact hinv
    · split
      · exact hinv
      · rename_i x0 index h1 x1 existing h2
        intro x hx
        simp only at hx
        rcases List.mem_or_eq_of_mem_set hx with h | h
        · exact hinv x h
        · subst h
          have hsat := findIdx?_sat _ d.configs index existing h1 h2
          simp only [decide_eq_true_eq] at hsat
          have he : existing ∈ d.configs := List.get?_mem h2
          have hb := hinv existing he
          simp only
          omega
  · intro d r hinv x hx
    simp only [FileStorage.createFeedbackResponse] at hx
    rcases List.mem_append.mp hx with h | h
    · have := hinv x h
      simp only [FileStorage.createFeedbackResponse]
      omega
    · simp at h
      subst h
      simp [FileStorage.createFeedbackResponse]
  · intro s c₁ c₂
    simp [MemStorage.createFactConfiguration]
  · intro d c₁ c₂
    simp [FileStorage.createFactConfiguration]

/-- The default configuration payload both stores seed themselves with. -/
def defaultInsertConfig : InsertFactConfiguration :=
  { restaurantFacts :=
      { name := "Sample Bistro", address := "123 Main Street, Anytown",
        url := "https://samplebistro.com", type := "Casual",
        brandTone := "Friendly",
        todoFacts := ["Currently running Summer Specials",
                      "Famous for seafood dishes"] },
    customerFacts :=
      { name := "John Doe", gender := "M", history := "Long-time",
        meal := "Dinner",
        todoFacts := ["Prefers window seating",
                      "Usually orders vegetarian dishes"] },
    systemFacts :=
      { promptTemplate := "You are a customer relationship manager for a restaurant named \"\x7bRestaurant Name\x7d\", located at \"\x7bAddress\x7d\". The restaurant type is \"\x7bRestaurant Type\x7d\" and communicates with a \"\x7bBrand tone\x7d\" tone.\n\nA customer named \"\x7bCustomer Name\x7d\" (\x7bGender\x7d), a \"\x7bCustomer History\x7d\" customer, recently had \"\x7bMeal type\x7d\" and left feedback: \"\x7bCustomer Feedback Text\x7d\".\n\nConsider the following additional restaurant facts: \x7bRestaurant Todo List Facts\x7d\nConsider the following additional customer facts: \x7bCustomer Todo List Facts\x7d\n\nGenerate a thoughtful, concise response addressing the customer's feedback appropriately. If feedback is negative, consider a polite apology. If positive, consider a friendly marketing message inviting them back.",
        responseLength := "medium", includeApology := true,
        includeMarketing := true, multipleResponses := false } }

/-- The in-memory store right after its constructor ran: empty maps and
counters 1, then one `createFactConfiguration` with the default payload. -/
def memInit : MemStorage :=
  (MemStorage.createFactConfiguration
    { factConfigs := [], feedbackResp := [], currentConfigId := 1,
      currentResponseId := 1 } defaultInsertConfig).2

/-- The configurations file as first created by `ensureDataDirectory`. -/
def cfgFileInit : ConfigFileData :=
  { configs :=
      [{ id := 1, restaurantFacts := defaultInsertConfig.restaurantFacts,
         customerFacts := defaultInsertConfig.customerFacts,
         systemFacts := defaultInsertConfig.systemFacts }],
    nextId := 2 }

/-- The responses file as first created by `ensureDataDirectory`. -/
def respFileInit : ResponsesFileData := { responses := [], nextId := 1 }

theorem create_ids_strictly_increasing_witness :
    memInit.CfgKeysBelow
      ∧ (∀ i ∈ (memInit.createManyCfg [defaultInsertConfig, defaultInsertConfig]).1,
          ∀ kv ∈ memInit.factConfigs, kv.1 ≠ i)
      ∧ memInit.RespKeysBelow
      ∧ (∀ i ∈ (memInit.createManyResp []).1, ∀ kv ∈ memInit.feedbackResp, kv.1 ≠ i)
      ∧ cfgFileInit.IdsBelow
      ∧ (∀ i ∈ (FileStorage.createManyCfg cfgFileInit [defaultInsertConfig]).1,
          ∀ c ∈ cfgFileInit.configs, c.id ≠ i)
      ∧ respFileInit.IdsBelow
      ∧ (∀ i ∈ (FileStorage.createManyResp respFileInit []).1,
          ∀ r ∈ respFileInit.responses, r.id ≠ i)
      ∧ (memInit.createFactConfiguration defaultInsertConfig).2.CfgKeysBelow
      ∧ (memInit.updateFactConfiguration 1
          ⟨none, none, none⟩).2.CfgKeysBelow
      ∧ (FileStorage.createFactConfiguration cfgFileInit
          defaultInsertConfig).2.IdsBelow
      ∧ (FileStorage.updateFactConfiguration cfgFileInit 1
          ⟨none, none, none⟩).2.IdsBelow :=
  ⟨by unfold MemStorage.CfgKeysBelow; decide,
   (create_ids_strictly_increasing.1 memInit _).2
     (by unfold MemStorage.CfgKeysBelow; decide),
   by unfold MemStorage.RespKeysBelow; decide,
   (create_ids_strictly_increasing.2.1 memInit _).2
     (by unfold MemStorage.RespKeysBelow; decide),
   by unfold ConfigFileData.IdsBelow; decide,
   (create_ids_strictly_increasing.2.2.1 cfgFileInit _).2
     (by unfold ConfigFileData.IdsBelow; decide),
   by unfold ResponsesFileData.IdsBelow; decide,
   (create_ids_strictly_increasing.2.2.2.1 respFileInit _).2
     (by unfold ResponsesFileData.IdsBelow; decide),
   (create_ids_strictly_increasing.2.2.2.2.1 memInit defaultInsertConfig).1
     (by unfold MemStorage.CfgKeysBelow; decide),
   create_ids_strictly_increasing.2.2.2.2.2.1 memInit 1 ⟨none, none, none⟩
     (by unfold MemStorage.CfgKeysBelow; decide),
   create_ids_strictly_increasing.2.2.2.2.2.2.2.1 cfgFileInit defaultInsertConfig
     (by unfold ConfigFileData.IdsBelow; decide),
   create_ids_strictly_increasing.2.2.2.2.2.2.2.2.1 cfgFileInit 1 ⟨none, none, none⟩
     (by unfold ConfigFileData.IdsBelow; decide)⟩

theorem le_foldl_max (ks : List Nat) :
    ∀ k, k ≤ ks.foldl max k ∧ ∀ x ∈ ks, x ≤ ks.foldl max k := by
  induction ks with
  | nil => intro k; exact ⟨Nat.le_refl k, by simp⟩
  | cons a ks ih =>
    intro k
    rw [List.foldl_cons]
    refine ⟨Nat.le_trans (Nat.le_max_left k a) (ih (max k a)).1, ?_⟩
    intro x hx
    rcases List.mem_cons.mp hx with rfl | h
    · exact Nat.le_trans (Nat.le_max_right k x) (ih (max k x)).1
    · exact (ih (max k a)).2 x h

theorem foldl_max_mem (ks : List Nat) :
    ∀ k, ks.foldl max k = k ∨ ks.foldl max k ∈ ks := by
  induction ks with
  | nil => intro k; exact Or.inl rfl
  | cons a ks ih =>
    intro k
    rw [List.foldl_cons]
    rcases ih (max k a) with h | h
    · rw [h]
      rcases Nat.le_total k a with hka | hka
      · rw [Nat.max_eq_right hka]
        exact Or.inr (List.mem_cons_self a ks)
      · rw [Nat.max_eq_left hka]
        exact Or.inl rfl
    · exact Or.inr (List.mem_cons_of_mem a h)

theorem mapGet_isSome_of_mem_keys {m : List (Nat × α)} {k : Nat}
    (h : k ∈ m.map Prod.fst) : ∃ v, mapGet m k = some v := by
  induction m with
  | nil => simp at h
  | cons hd tl ih =>
    rw [mapGet]
    by_cases he : hd.1 = k
    · exact ⟨hd.2, by rw [if_pos he]⟩
    · rw [if_neg he]
      rw [List.map_cons] at h
      rcases List.mem_cons.mp h with h1 | h1
      · exact absurd h1.symm he
      · exact ih h1

/-- Every stored configuration of the in-memory store carries its own map
key as its id. -/
def MemStorage.KeysMatch (s : MemStorage) : Prop :=
  ∀ kv ∈ s.factConfigs, kv.2.id = kv.1

/-- The ids of the configurations file are strictly increasing along the
array. -/
def ConfigFileData.SortedIds (d : ConfigFileData) : Prop :=
  List.Pairwise (fun a b => a.id < b.id) d.configs

theorem pairwise_set_of_rel {α : Type} {R : α → α → Prop} :
    ∀ (l : List α) (ix : Nat) (old u : α), List.Pairwise R l →
      l.get? ix = some old →
      (∀ y, R old y → R u y) → (∀ y, R y old → R y u) →
      List.Pairwise R (l.set ix u) := by
  intro l
  induction l with
  | nil => intro ix old u _ hg; simp at hg
  | cons a tl ih =>
    intro ix old u hp hg t1 t2
    rcases List.pairwise_cons.mp hp with ⟨ha, htl⟩
    cases ix with
    | zero =>
      simp only [List.get?] at hg
      injection hg with hg
      subst hg
      rw [List.set_cons_zero]
      exact List.pairwise_cons.mpr ⟨fun b hb => t1 b (ha b hb), htl⟩
    | succ ix =>
      simp only [List.get?] at hg
      rw [List.set_cons_succ]
      refine List.pairwise_cons.mpr ⟨?_, ih ix old u htl hg t1 t2⟩
      intro b hb
      rcases List.mem_or_eq_of_mem_set hb with h | h
      · exact ha b h
      · subst h
        exact t2 _ (ha old (List.get?_mem hg))

theorem mem_create_keysMatch (s : MemStorage) (c : InsertFactConfiguration)
    (h : s.KeysMatch) : (s.createFactConfiguration c).2.KeysMatch := by
  intro kv hkv
  rcases mem_mapSet kv hkv with rfl | hm
  · rfl
  · exact h kv hm

theorem mem_update_keysMatch (s : MemStorage) (id : Nat)
    (p : PartialInsertFactConfiguration) (h : s.KeysMatch) :
    (s.updateFactConfiguration id p).2.KeysMatch := by
  rw [MemStorage.updateFactConfiguration]
  match hg : mapGet s.factConfigs id with
  | none => exact h
  | some existing =>
    intro kv hkv
    rcases mem_mapSet kv hkv with rfl | hm
    · rfl
    · exact h kv hm

theorem file_create_sortedIds (d : ConfigFileData) (c : InsertFactConfiguration)
    (hb : d.IdsBelow) (hs : d.SortedIds) :
    (FileStorage.createFactConfiguration d c).2.SortedIds := by
  refine List.pairwise_append.mpr ⟨hs, List.pairwise_singleton _ _, ?_⟩
  intro a ha b hb2
  simp only [List.mem_singleton] at hb2
  subst hb2
  exact hb a ha

theorem file_update_sortedIds (d : ConfigFileData) (id : Nat)
    (p : PartialInsertFactConfiguration) (hs : d.SortedIds) :
    (FileStorage.updateFactConfiguration d id p).2.SortedIds := by
  rw [FileStorage.updateFactConfiguration]
  split
  · exact hs
  · split
    · exact hs
    · rename_i x0 index h1 x1 existing h2
      have hsat := findIdx?_sat _ d.configs index existing h1 h2
      simp only [decide_eq_true_eq] at hsat
      refine pairwise_set_of_rel d.configs index existing _ hs h2 ?_ ?_
      · intro y hy
        simpa [hsat] using hy
      · intro y hy
        simpa [hsat] using hy

/-- C4: `getLatest` returns `none` exactly on the empty store, and
otherwise a stored configuration whose identifier is maximal — for the
in-memory store under the key-consistency invariant (in particular
independently of insertion order), and for the file store under the
sorted-ids invariant; both invariants are preserved by create and
update. -/
theorem getLatest_highest_id :
    (∀ s : MemStorage,
        (s.getLatestFactConfiguration = none ↔ s.factConfigs = [])
      ∧ (s.KeysMatch → ∀ cfg, s.getLatestFactConfiguration = some cfg →
          (∃ kv ∈ s.factConfigs, kv.2 = cfg)
            ∧ ∀ kv ∈ s.factConfigs, kv.1 ≤ cfg.id))
    ∧ (∀ d : ConfigFileData,
        (FileStorage.getLatestFactConfiguration d = none ↔ d.configs = [])
      ∧ (d.SortedIds → ∀ cfg,
          FileStorage.getLatestFactConfiguration d = some cfg →
          cfg ∈ d.configs ∧ ∀ c ∈ d.configs, c.id ≤ cfg.id))
    ∧ (∀ (s : MemStorage) (c : InsertFactConfiguration),
        s.KeysMatch → (s.createFactConfiguration c).2.KeysMatch)
    ∧ (∀ (s : MemStorage) (id : Nat) (p : PartialInsertFactConfiguration),
        s.KeysMatch → (s.updateFactConfiguration id p).2.KeysMatch)
    ∧ (∀ (d : ConfigFileData) (c : InsertFactConfiguration),
        d.IdsBelow → d.SortedIds →
        (FileStorage.createFactConfiguration d c).2.SortedIds)
    ∧ (∀ (d : ConfigFileData) (id : Nat) (p : PartialInsertFactConfiguration),
        d.SortedIds → (FileStorage.updateFactConfiguration d id p).2.SortedIds) := by
  refine ⟨?_, ?_, mem_create_keysMatch, mem_update_keysMatch,
    file_create_sortedIds, file_update_sortedIds⟩
  · intro s
    rw [MemStorage.getLatestFactConfiguration]
    match hm : s.factConfigs.map Prod.fst with
    | [] =>
      refine ⟨⟨fun _ => List.map_eq_nil_iff.mp hm, fun _ => rfl⟩, ?_⟩
      intro _ cfg hcfg
      exact absurd hcfg (by simp)
    | k :: ks =>
      have hred : (match k :: ks with
          | [] => (none : Option FactConfiguration)
          | k :: ks => mapGet s.factConfigs (ks.foldl max k))
          = mapGet s.factConfigs (ks.foldl max k) := rfl
      rw [hred]
      constructor
      · constructor
        · intro hnone
          obtain ⟨v, hv⟩ := mapGet_isSome_of_mem_keys (m := s.factConfigs)
            (k := ks.foldl max k) (by
              rw [hm]
              rcases foldl_max_mem ks k with h | h
              · rw [h]; exact List.mem_cons_self _ _
              · exact List.mem_cons_of_mem _ h)
          rw [hv] at hnone
          exact Option.noConfusion hnone
        · intro hnil
          rw [hnil] at hm
          simp at hm
      · intro hkeys cfg hcfg
        have hmem : (ks.foldl max k, cfg) ∈ s.factConfigs := mapGet_mem hcfg
        have hid : cfg.id = ks.foldl max k := hkeys _ hmem
        refine ⟨⟨_, hmem, rfl⟩, ?_⟩
        intro kv hkv
        have hk : kv.1 ∈ s.factConfigs.map Prod.fst :=
          List.mem_map_of_mem Prod.fst hkv
        rw [hm] at hk
        rw [hid]
        rcases List.mem_cons.mp hk with rfl | h
        · exact (le_foldl_max ks kv.1).1
        · exact (le_foldl_max ks k).2 kv.1 h
  · intro d
    rw [FileStorage.getLatestFactConfiguration]
    by_cases he : d.configs.isEmpty
    · rw [if_pos he]
      refine ⟨⟨fun _ => by simpa using he, fun _ => rfl⟩, ?_⟩
      intro _ cfg hcfg
      exact absurd hcfg (by simp)
    · rw [if_neg he]
      constructor
      · constructor
        · intro hnone
          rw [List.getLast?_eq_none_iff] at hnone
          rw [hnone] at he
          simp at he
        · intro hnil
          rw [hnil] at he
          simp at he
      · intro hs cfg hcfg
        refine ⟨List.mem_of_getLast?_eq_some hcfg, ?_⟩
        obtain ⟨ys, hys⟩ := List.getLast?_eq_some_iff.mp hcfg
        intro c hc
        have hs' : List.Pairwise (fun a b => a.id < b.id) d.configs := hs
        rw [hys] at hs' hc
        rcases List.mem_append.mp hc with h | h
        · have := (List.pairwise_append.mp hs').2.2 c h cfg (by simp)
          omega
        · simp at h
          subst h
          exact Nat.le_refl _

/-- The seeded configuration row shared by both stores. -/
def cfg0 : FactConfiguration :=
  { id := 1, restaurantFacts := defaultInsertConfig.restaurantFacts,
    customerFacts := defaultInsertConfig.customerFacts,
    systemFacts := defaultInsertConfig.systemFacts }

set_option maxRecDepth 4000 in
theorem getLatest_highest_id_witness :
    memInit.KeysMatch
      ∧ ((∃ kv ∈ memInit.factConfigs, kv.2 = cfg0)
          ∧ ∀ kv ∈ memInit.factConfigs, kv.1 ≤ cfg0.id)
      ∧ cfgFileInit.SortedIds
      ∧ (cfg0 ∈ cfgFileInit.configs ∧ ∀ c ∈ cfgFileInit.configs, c.id ≤ cfg0.id)
      ∧ (memInit.createFactConfiguration defaultInsertConfig).2.KeysMatch
      ∧ (memInit.updateFactConfiguration 1 ⟨none, none, none⟩).2.KeysMatch
      ∧ (FileStorage.createFactConfiguration cfgFileInit
          defaultInsertConfig).2.SortedIds
      ∧ (FileStorage.updateFactConfiguration cfgFileInit 1
          ⟨none, none, none⟩).2.SortedIds := by
  have hKM : memInit.KeysMatch := by unfold MemStorage.KeysMatch; decide
  have hS : cfgFileInit.SortedIds := by unfold ConfigFileData.SortedIds; decide
  have hB : cfgFileInit.IdsBelow := by unfold ConfigFileData.IdsBelow; decide
  exact ⟨hKM, (getLatest_highest_id.1 memInit).2 hKM cfg0 (by decide),
    hS, (getLatest_highest_id.2.1 cfgFileInit).2 hS cfg0 (by decide),
    getLatest_highest_id.2.2.1 memInit defaultInsertConfig hKM,
    getLatest_highest_id.2.2.2.1 memInit 1 ⟨none, none, none⟩ hKM,
    getLatest_highest_id.2.2.2.2.1 cfgFileInit defaultInsertConfig hB hS,
    getLatest_highest_id.2.2.2.2.2 cfgFileInit 1 ⟨none, none, none⟩ hS⟩

theorem mapGet_mapSet_self {m : List (Nat × α)} (k : Nat) (v : α) :
    mapGet (mapSet m k v) k = some v := by
  induction m with
  | nil => simp [mapSet, mapGet]
  | cons hd tl ih =>
    rw [mapSet]
    by_cases he : hd.1 = k
    · rw [if_pos he, mapGet, if_pos rfl]
    · rw [if_neg he, mapGet, if_neg he]
      exact ih

theorem mapGet_mapSet_ne {m : List (Nat × α)} {k k' : Nat} (v : α)
    (h : k' ≠ k) : mapGet (mapSet m k v) k' = mapGet m k' := by
  induction m with
  | nil =>
    simp only [mapSet, mapGet]
    rw [if_neg (fun hc : k = k' => h hc.symm)]
  | cons hd tl ih =>
    rw [mapSet]
    by_cases he : hd.1 = k
    · have h1 : ¬k = k' := fun hc => h hc.symm
      have h2 : ¬hd.1 = k' := he ▸ h1
      rw [if_pos he, mapGet, if_neg h1, mapGet, if_neg h2]
    · rw [if_neg he, mapGet, mapGet]
      by_cases he2 : hd.1 = k'
      · rw [if_pos he2, if_pos he2]
      · rw [if_neg he2, if_neg he2]
        exact ih

theorem find?_of_findIdx?_get? {α : Type} (p : α → Bool) :
    ∀ (l : List α) (ix : Nat) (x : α), l.findIdx? p = some ix →
      l.get? ix = some x → l.find? p = some x := by
  intro l
  induction l with
  | nil => intro ix x h; simp at h
  | cons a tl ih =>
    intro ix x h hg
    rw [List.findIdx?_cons] at h
    by_cases hp : p a
    · rw [if_pos hp] at h
      injection h with h2
      subst h2
      simp only [List.get?] at hg
      injection hg with h3
      subst h3
      rw [List.find?_cons_of_pos _ hp]
    · rw [if_neg hp, List.findIdx?_succ] at h
      match hix : tl.findIdx? p with
      | none => rw [hix] at h; simp at h
      | some j =>
        rw [hix] at h
        simp at h
        subst h
        simp only [List.get?] at hg
        rw [List.find?_cons_of_neg _ hp]
        exact ih j x hix hg

theorem findIdx?_none_find?_none {α : Type} (p : α → Bool) (l : List α)
    (h : l.findIdx? p = none) : l.find? p = none := by
  rw [List.findIdx?_eq_none_iff] at h
  rw [List.find?_eq_none]
  intro x hx
  rw [h x hx]
  simp

theorem find?_set_of_false {α : Type} (p : α → Bool) :
    ∀ (l : List α) (ix : Nat) (u : α),
      (∀ x, l.get? ix = some x → p x = false) → p u = false →
      (l.set ix u).find? p = l.find? p := by
  intro l
  induction l with
  | nil => intro ix u _ _; rfl
  | cons a tl ih =>
    intro ix u hold hu
    cases ix with
    | zero =>
      rw [List.set_cons_zero]
      have ha : p a = false := hold a rfl
      rw [List.find?_cons_of_neg _ (by simp [hu]), List.find?_cons_of_neg _ (by simp [ha])]
    | succ ix =>
      rw [List.set_cons_succ]
      by_cases hp : p a
      · rw [List.find?_cons_of_pos _ hp, List.find?_cons_of_pos _ hp]
      · rw [List.find?_cons_of_neg _ hp, List.find?_cons_of_neg _ hp]
        exact ih ix u (fun x hx => hold x hx) hu

theorem find?_set_of_findIdx? {α : Type} (p : α → Bool) :
    ∀ (l : List α) (ix : Nat) (u : α), l.findIdx? p = some ix → p u = true →
      (l.set ix u).find? p = some u := by
  intro l
  induction l with
  | nil => intro ix u h; simp at h
  | cons a tl ih =>
    intro ix u h hu
    rw [List.findIdx?_cons] at h
    by_cases hp : p a
    · rw [if_pos hp] at h
      injection h with h2
      subst h2
      rw [List.set_cons_zero, List.find?_cons_of_pos _ hu]
    · rw [if_neg hp, List.findIdx?_succ] at h
      match hix : tl.findIdx? p with
      | none => rw [hix] at h; simp at h
      | some j =>
        rw [hix] at h
        simp at h
        subst h
        rw [List.set_cons_succ, List.find?_cons_of_neg _ hp]
        exact ih j u hix hu

theorem findIdx?_of_find? {α : Type} (p : α → Bool) :
    ∀ (l : List α) (x : α), l.find? p = some x →
      ∃ ix, l.findIdx? p = some ix ∧ l.get? ix = some x := by
  intro l
  induction l with
  | nil => intro x h; simp at h
  | cons a tl ih =>
    intro x h
    by_cases hp : p a
    · rw [List.find?_cons_of_pos _ hp] at h
      injection h with h2
      subst h2
      exact ⟨0, by rw [List.findIdx?_cons, if_pos hp], rfl⟩
    · rw [List.find?_cons_of_neg _ hp] at h
      obtain ⟨j, hj, hg⟩ := ih x h
      refine ⟨j + 1, ?_, hg⟩
      rw [List.findIdx?_cons, if_neg hp, List.findIdx?_succ, hj]
      rfl

/-- C8: update on an existing identifier merges the partial payload onto
the stored configuration in place — the result keeps the identifier,
specified fact groups are replaced, unspecified ones are kept, other
entries are untouched — and update on a missing identifier returns
not-found and leaves the store unchanged; in both implementations. -/
theorem update_semantics :
    (∀ (s : MemStorage) (id : Nat) (p : PartialInsertFactConfiguration),
        (s.getFactConfiguration id = none →
          s.updateFactConfiguration id p = (none, s))
      ∧ (∀ existing, s.getFactConfiguration id = some existing →
          ∃ upd, (s.updateFactConfiguration id p).1 = some upd
            ∧ (s.updateFactConfiguration id p).2.getFactConfiguration id
                = some upd
            ∧ upd.id = id
            ∧ (p.restaurantFacts = none →
                upd.restaurantFacts = existing.restaurantFacts)
            ∧ (∀ v, p.restaurantFacts = some v → upd.restaurantFacts = v)
            ∧ (p.customerFacts = none →
                upd.customerFacts = existing.customerFacts)
            ∧ (∀ v, p.customerFacts = some v → upd.customerFacts = v)
            ∧ (p.systemFacts = none → upd.systemFacts = existing.systemFacts)
            ∧ (∀ v, p.systemFacts = some v → upd.systemFacts = v)
            ∧ (∀ k, k ≠ id →
                (s.updateFactConfiguration id p).2.getFactConfiguration k
                  = s.getFactConfiguration k)
            ∧ (s.updateFactConfiguration id p).2.feedbackResp
                = s.feedbackResp))
    ∧ (∀ (d : ConfigFileData) (id : Nat) (p : PartialInsertFactConfiguration),
        (FileStorage.getFactConfiguration d id = none →
          FileStorage.updateFactConfiguration d id p = (none, d))
      ∧ (∀ existing, FileStorage.getFactConfiguration d id = some existing →
          ∃ upd, (FileStorage.updateFactConfiguration d id p).1 = some upd
            ∧ FileStorage.getFactConfiguration
                (FileStorage.updateFactConfiguration d id p).2 id = some upd
            ∧ upd.id = id
            ∧ (p.restaurantFacts = none →
                upd.restaurantFacts = existing.restaurantFacts)
            ∧ (∀ v, p.restaurantFacts = some v → upd.restaurantFacts = v)
            ∧ (p.customerFacts = none →
                upd.customerFacts = existing.customerFacts)
            ∧ (∀ v, p.customerFacts = some v → upd.customerFacts = v)
            ∧ (p.systemFacts = none → upd.systemFacts = existing.systemFacts)
            ∧ (∀ v, p.systemFacts = some v → upd.systemFacts = v)
            ∧ (∀ k, k ≠ id →
                FileStorage.getFactConfiguration
                  (FileStorage.updateFactConfiguration d id p).2 k
                  = FileStorage.getFactConfiguration d k)
            ∧ (FileStorage.updateFactConfiguration d id p).2.nextId
                = d.nextId)) := by
  constructor
  · intro s id p
    constructor
    · intro h
      have hg : mapGet s.factConfigs id = none := h
      simp only [MemStorage.updateFactConfiguration, hg]
    · intro existing h
      have hg : mapGet s.factConfigs id = some existing := h
      simp only [MemStorage.updateFactConfiguration, hg]
      refine ⟨_, rfl, ?_, rfl, ?_, ?_, ?_, ?_, ?_, ?_, ?_, trivial⟩
      · exact mapGet_mapSet_self id _
      · intro hn; rw [hn]; rfl
      · intro v hv; rw [hv]; rfl
      · intro hn; rw [hn]; rfl
      · intro v hv; rw [hv]; rfl
      · intro hn; rw [hn]; rfl
      · intro v hv; rw [hv]; rfl
      · intro k hk
        exact mapGet_mapSet_ne _ hk
  · intro d id p
    constructor
    · intro h
      have hfind : d.configs.find? (fun c => c.id = id) = none := h
      have hidx : d.configs.findIdx? (fun c => c.id = id) = none := by
        rw [List.findIdx?_eq_none_iff]
        intro x hx
        have := List.find?_eq_none.mp hfind x hx
        simpa using this
      simp only [FileStorage.updateFactConfiguration, hidx]
    · intro existing h
      have hfind : d.configs.find? (fun c => c.id = id) = some existing := h
      have hex : existing.id = id := by
        have := List.find?_some hfind
        simpa using this
      obtain ⟨ix, hidx, hget⟩ := findIdx?_of_find? _ d.configs existing hfind
      simp only [FileStorage.updateFactConfiguration, hidx, hget]
      refine ⟨_, rfl, ?_, rfl, ?_, ?_, ?_, ?_, ?_, ?_, ?_, trivial⟩
      · show (d.configs.set ix _).find? (fun c => c.id = id) = some _
        exact find?_set_of_findIdx? _ d.configs ix _ hidx (by simp)
      · intro hn; rw [hn]; rfl
      · intro v hv; rw [hv]; rfl
      · intro hn; rw [hn]; rfl
      · intro v hv; rw [hv]; rfl
      · intro hn; rw [hn]; rfl
      · intro v hv; rw [hv]; rfl
      · intro k hk
        show (d.configs.set ix _).find? (fun c => c.id = k) = _
        apply find?_set_of_false
        · intro x hx
          rw [hget] at hx
          injection hx with hx
          subst hx
          show decide (existing.id = k) = false
          rw [hex]
          exact decide_eq_false fun hc => hk hc.symm
        · show decide (id = k) = false
          exact decide_eq_false fun hc => hk hc.symm

set_option maxRecDepth 4000 in
theorem update_semantics_witness :
    memInit.updateFactConfiguration 99 ⟨none, none, none⟩ = (none, memInit)
      ∧ (∃ upd, (memInit.updateFactConfiguration 1 ⟨none, none, none⟩).1
            = some upd
          ∧ (memInit.updateFactConfiguration 1
              ⟨none, none, none⟩).2.getFactConfiguration 1 = some upd
          ∧ upd.id = 1
          ∧ upd.restaurantFacts = cfg0.restaurantFacts)
      ∧ FileStorage.updateFactConfiguration cfgFileInit 99 ⟨none, none, none⟩
          = (none, cfgFileInit)
      ∧ (∃ upd, (FileStorage.updateFactConfiguration cfgFileInit 1
            ⟨none, none, none⟩).1 = some upd
          ∧ FileStorage.getFactConfiguration
              (FileStorage.updateFactConfiguration cfgFileInit 1
                ⟨none, none, none⟩).2 1 = some upd
          ∧ upd.id = 1
          ∧ upd.systemFacts = cfg0.systemFacts) := by
  refine ⟨(update_semantics.1 memInit 99 ⟨none, none, none⟩).1 (by decide),
    ?_, (update_semantics.2 cfgFileInit 99 ⟨none, none, none⟩).1 (by decide), ?_⟩
  · obtain ⟨upd, h1, h2, h3, h4, _⟩ :=
      (update_semantics.1 memInit 1 ⟨none, none, none⟩).2 cfg0 (by decide)
    exact ⟨upd, h1, h2, h3, h4 rfl⟩
  · obtain ⟨upd, h1, h2, h3, _, _, _, _, h8, _⟩ :=
      (update_semantics.2 cfgFileInit 1 ⟨none, none, none⟩).2 cfg0 (by decide)
    exact ⟨upd, h1, h2, h3, h8 rfl⟩

theorem mem_configurationId_counterexample :
    (MemStorage.createFeedbackResponse
      { factConfigs := [], feedbackResp := [], currentConfigId := 1,
        currentResponseId := 1 }
      { feedbackText := "f", aiResponse := "r",
        configurationId := none }).1.configurationId = none := rfl

/-- C9 (amended): the file-backed implementation defaults an absent (or
zero, which is falsy) configurationId to the fallback value 1 and appends
the record; the in-memory implementation spreads the payload unchanged, so
an absent configurationId stays absent. -/
theorem createFeedbackResponse_configurationId :
    (∀ (d : ResponsesFileData) (r : InsertFeedbackResponse),
        r.configurationId = none →
        (FileStorage.createFeedbackResponse d r).1.configurationId = some 1
          ∧ (FileStorage.createFeedbackResponse d r).2.responses
              = d.responses ++ [(FileStorage.createFeedbackResponse d r).1])
    ∧ (∀ (d : ResponsesFileData) (r : InsertFeedbackResponse) (n : Nat),
        r.configurationId = some n → n ≠ 0 →
        (FileStorage.createFeedbackResponse d r).1.configurationId = some n)
    ∧ (∀ (s : MemStorage) (r : InsertFeedbackResponse),
        (s.createFeedbackResponse r).1.configurationId = r.configurationId) := by
  refine ⟨?_, ?_, fun s r => rfl⟩
  · intro d r h
    constructor
    · show some (match r.configurationId with
        | none => 1 | some n => if n = 0 then 1 else n) = some 1
      rw [h]
    · rfl
  · intro d r n h hn
    show some (match r.configurationId with
      | none => 1 | some n => if n = 0 then 1 else n) = some n
    rw [h]
    simp [hn]

theorem createFeedbackResponse_configurationId_witness :
    (({ feedbackText := "f", aiResponse := "r", configurationId := none }
        : InsertFeedbackResponse).configurationId = none)
      ∧ (FileStorage.createFeedbackResponse respFileInit
          { feedbackText := "f", aiResponse := "r",
            configurationId := none }).1.configurationId = some 1
      ∧ (FileStorage.createFeedbackResponse respFileInit
          { feedbackText := "f", aiResponse := "r",
            configurationId := some 7 }).1.configurationId = some 7 :=
  ⟨rfl,
   (createFeedbackResponse_configurationId.1 respFileInit
     { feedbackText := "f", aiResponse := "r", configurationId := none }
     rfl).1,
   createFeedbackResponse_configurationId.2.1 respFileInit
     { feedbackText := "f", aiResponse := "r", configurationId := some 7 }
     7 rfl (by decide)⟩

/-- C2: generation with empty feedback text fails with the input-validation
error and leaves the whole store untouched; and whenever the collaborator
returns absent or empty content for the built prompt, generation fails
with the dependency error and nothing is persisted. -/
theorem generateResponse_failures_nothing_persisted
    (s : MemStorage) (fb : String) (cid : Option Nat)
    (gen : String → Nat → Option String) :
    (fb = "" →
      generateResponse s fb cid gen = (Except.error GenError.feedbackRequired, s))
    ∧ (∀ config : FactConfiguration, fb ≠ "" →
        resolveConfig s cid = some config →
        gen (buildPrompt config fb)
            (maxTokensFor config.systemFacts.responseLength) = none
          ∨ gen (buildPrompt config fb)
              (maxTokensFor config.systemFacts.responseLength) = some "" →
        generateResponse s fb cid gen
          = (Except.error GenError.generationFailed, s)) := by
  constructor
  · intro h
    rw [generateResponse, if_pos h]
  · intro config hfb hcfg hgen
    rw [generateResponse, if_neg hfb]
    simp only [hcfg]
    rcases hgen with h | h
    · rw [h]
    · rw [h]
      rfl

set_option maxRecDepth 4000 in
theorem generateResponse_failures_witness :
    generateResponse memInit "" none (fun _ _ => some "ok")
        = (Except.error GenError.feedbackRequired, memInit)
      ∧ generateResponse memInit "Great food!" none (fun _ _ => some "")
          = (Except.error GenError.generationFailed, memInit) :=
  ⟨(generateResponse_failures_nothing_persisted memInit "" none
      (fun _ _ => some "ok")).1 rfl,
   (generateResponse_failures_nothing_persisted memInit "Great food!" none
      (fun _ _ => some "")).2 cfg0 (by decide) (by decide) (Or.inr rfl)⟩
